import Mathlib

/-!
# clang-unformat: validation of the run configuration (`cli_config.cpp`)

A shallow embedding of `src/standalone/cli_config.cpp`.

* `std::filesystem::path` is the list of its components, as the iteration of
  a C++ path yields them: `"/x/.clang-format"` is `["/", "x", ".clang-format"]`,
  the empty path is `[]`, a relative path does not start with `"/"`.
* The filesystem is a finite tree of directories, symbolic links and other
  files; a path is resolved as the system does it, through `.`, `..` and the
  links. Every function that reads or changes the filesystem takes the
  `world` and returns the new one. A stat call that fails for another reason
  than a missing entry (no permission, too many links) is not told from a
  missing entry.
* A C++ exception leaving a function is the `Except.error` result; for the
  validators it carries the configuration and the world at the throw.
* The asynchronous version probe is a state machine: the two completion
  handlers are transitions of `probe_state`, and `proc_ctx.run()` dispatches
  a list of completion events.
* `std::size_t` is 64 bits wide; the arithmetic on string positions wraps
  modulo `2 ^ 64`.
-/

namespace ClangUnformat

/-! ## Exceptions -/

/-- The C++ exceptions that can leave the functions of `cli_config.cpp`. -/
inductive exn where
  /-- Thrown by `std::string_view::substr` when `pos > size()`. -/
  | out_of_range
  /-- Thrown by the directory iterators and by `fs::create_directories`. -/
  | filesystem_error
  /-- Thrown by the constructor of `process::process` when the launch fails. -/
  | system_error
deriving DecidableEq, Repr

/-! ## Paths -/

/-- A `std::filesystem::path`, as the list of its components. -/
abbrev path := List String

/-- The member `path::empty()`. -/
def path.empty (p : path) : Bool := p.isEmpty

/-- The member `path::is_absolute()` on POSIX: the path has a root directory. -/
def path.is_absolute (p : path) : Bool :=
  match p with
  | [] => false
  | c :: _ => c == "/"

/-- The `operator/` of paths: an absolute right operand replaces the left one,
a relative one is appended. -/
def path.append (p q : path) : path :=
  if path.is_absolute q then q else p ++ q

/-- The member `path::filename()`: the last component, empty for the empty
path and for the root directory. -/
def path.filename : path → String
  | [] => ""
  | [c] => if c == "/" then "" else c
  | _ :: c :: cs => path.filename (c :: cs)

/-! ## Configuration -/

/-- Modelled from the spec: the declaration of `struct cli_config` lives in
`cli_config.hpp`, which is not among the sources; the fields are the ones
`parse_cli` fills in and the validators read and write (`RunConfig` in the
specification), the two counters being `std::size_t`. -/
structure cli_config where
  help : Bool
  input : path
  output : path
  temp : path
  clang_format : path
  clang_format_version : Nat
  extensions : List String
  parallel : Nat
  require_influence : Bool
deriving DecidableEq, Repr

/-! ## Strings of the version probe -/

/-- The width of `std::size_t`. -/
def SIZE_WIDTH : Nat := 64

/-- The constant `std::string_view::npos`, the largest `std::size_t`. -/
def npos : Nat := 2 ^ SIZE_WIDTH - 1

/-- Whether `s` begins with `needle`. -/
def starts_with : List Char → List Char → Bool
  | [], _ => true
  | _ :: _, [] => false
  | a :: as, b :: bs => a == b && starts_with as bs

/-- The search loop of `std::string_view::find`: the first position at or
after `pos` where `needle` occurs in the rest `s`, or `npos`. -/
def find_at (needle : List Char) : List Char → Nat → Nat
  | [], pos => if starts_with needle [] then pos else npos
  | c :: cs, pos =>
    if starts_with needle (c :: cs) then pos else find_at needle cs (pos + 1)

/-- The member `std::string_view::find(needle)`. -/
def sv_find (s needle : List Char) : Nat := find_at needle s 0

/-- The search loop of `std::string_view::find_first_of(ch)`. -/
def find_first_of_at (ch : Char) : List Char → Nat → Nat
  | [], _ => npos
  | c :: cs, pos => if c = ch then pos else find_first_of_at ch cs (pos + 1)

/-- The member `std::string_view::find_first_of(ch)`. -/
def find_first_of (s : List Char) (ch : Char) : Nat := find_first_of_at ch s 0

/-- The member `std::string_view::substr(pos, n)`: throws `std::out_of_range`
when `pos > size()`, otherwise the view of `min(n, size() - pos)` characters
from `pos`. -/
def substr (s : List Char) (pos n : Nat) : Except exn (List Char) :=
  if pos > s.length then .error .out_of_range else .ok ((s.drop pos).take n)

/-- The values of `std::errc` that `std::from_chars` reports. -/
inductive errc where
  | ok
  | invalid_argument
  | result_out_of_range
deriving DecidableEq, Repr

/-- The value of a decimal digit. -/
def digit_value (c : Char) : Nat := c.toNat - 48

/-- The function `std::from_chars(first, last, major, 10)` for the unsigned
`std::size_t major`: the longest run of decimal digits at the start is the
number (no sign, no white space); without a digit the result is
`invalid_argument`, a number that does not fit `std::size_t` is
`result_out_of_range`, and in both cases `major` keeps its value. -/
def from_chars (s : List Char) (major : Nat) : errc × Nat :=
  let digits := s.takeWhile Char.isDigit
  if digits.isEmpty then (.invalid_argument, major)
  else
    let v := digits.foldl (fun acc c => 10 * acc + digit_value c) 0
    if v > npos then (.result_out_of_range, major) else (.ok, v)

/-- The call `std::getline(is, line)` on a stream over the buffer: the
characters before the first line feed are the line, the line feed is consumed
and the rest stays in the buffer. -/
def getline : List Char → List Char × List Char
  | [] => ([], [])
  | c :: cs =>
    if c = '\n' then ([], cs)
    else ((c :: (getline cs).1), (getline cs).2)

/-- The literal `needle` of `read_cb_inner`. -/
def needle : List Char := "clang-format version ".toList

/-! ## The version probe as a state machine -/

/-- The `boost::system::error_code` a read completion carries. -/
inductive error_code where
  /-- No error: the delimiter is in the buffer. -/
  | success
  /-- The value `basio::error::eof`. -/
  | eof
  /-- Any other error. -/
  | fault
deriving DecidableEq, Repr

/-- The variables the two completion handlers of `set_clang_format_version`
capture by reference, and whether an `async_read_until` is outstanding. -/
structure probe_state where
  config : cli_config
  success : Bool
  buffer : List Char
  reading : Bool
deriving DecidableEq, Repr

/-- The completion handler bound to `process::async_execute`
(lines 262 to 276). -/
def exit_cb (ec : Bool) (exit_code : Int) (s : probe_state) : probe_state :=
  if ec || exit_code != 0 then { s with success := false } else s

/-- The lambda `read_cb_inner` (lines 279 to 364), run on a state in which
the read that completed is no longer outstanding. The result has
`reading := true` exactly when the handler reached `next_read`. -/
def read_cb_inner (ec : error_code) (s : probe_state) : Except exn probe_state :=
  if ec ≠ .success then
    if ec ≠ .eof then .ok s else .ok { s with success := false }
  else
    let line := (getline s.buffer).1
    let s := { s with buffer := (getline s.buffer).2 }
    if line.isEmpty then .ok s
    else
      let clang_version_off := sv_find line needle
      if clang_version_off = 0 then
        -- goto next_read
        .ok { s with reading := true }
      else
        match substr line ((clang_version_off + needle.length) % 2 ^ SIZE_WIDTH)
            line.length with
        | .error e => .error e
        | .ok line_view =>
          let major_end := find_first_of line_view '.'
          if major_end = npos then .ok { s with success := false }
          else
            match substr line_view 0 major_end with
            | .error e => .error e
            | .ok clang_version_view =>
              match from_chars clang_version_view 0 with
              | (.ok, major) =>
                .ok { s with
                  config := { s.config with clang_format_version := major }
                  success := true }
              | _ => .ok { s with success := false }

/-- A completion the event loop dispatches. -/
inductive event where
  /-- An `async_read_until` completed with `ec`, after `data` arrived in the
  buffer. -/
  | read (ec : error_code) (data : List Char)
  /-- The child process ended: `ec` tells a process-level error. -/
  | exit (ec : Bool) (exit_code : Int)
deriving DecidableEq, Repr

/-- One dispatch of the event loop. A read completion without an outstanding
read does not occur and is skipped. -/
def deliver (e : event) (s : probe_state) : Except exn probe_state :=
  match e with
  | .read ec data =>
    if s.reading then
      read_cb_inner ec { s with buffer := s.buffer ++ data, reading := false }
    else .ok s
  | .exit ec exit_code => .ok (exit_cb ec exit_code s)

/-- The call `proc_ctx.run()`: the completions are dispatched in order, and an
exception of a handler leaves the loop. -/
def run : List event → probe_state → Except exn probe_state
  | [], s => .ok s
  | e :: es, s =>
    match deliver e s with
    | .error x => .error x
    | .ok s' => run es s'

/-- One run of the child process `clang-format --version`: what it writes to
its standard output, how it ends, and how many read completions the event
loop dispatches before the exit completion. -/
structure child_process where
  output : List Char
  exit_ec : Bool
  exit_code : Int
  exit_after : Nat
deriving DecidableEq, Repr

/-- The read completions the pipe can deliver for the output `out`: one
successful completion per line feed, carrying the bytes up to it, then
end of stream with the bytes that are left. The accumulator `acc` holds the
bytes of the current line in reverse. -/
def pipe_reads : List Char → List Char → List event
  | [], acc => [.read .eof acc.reverse]
  | c :: cs, acc =>
    if c = '\n' then .read .success (c :: acc).reverse :: pipe_reads cs []
    else pipe_reads cs (c :: acc)

/-- The order in which the event loop dispatches the completions of one child
process. -/
def schedule (child : child_process) : List event :=
  let reads := pipe_reads child.output []
  reads.take child.exit_after
    ++ .exit child.exit_ec child.exit_code :: reads.drop child.exit_after

/-- The state of `set_clang_format_version` when `proc_ctx.run()` starts:
`success` is false, the buffer is empty and the first `async_read_until` is
outstanding. -/
def probe_init (config : cli_config) : probe_state :=
  { config := config, success := false, buffer := [], reading := true }

/-! ## Filesystem -/

/-- The entries of one directory, in the order the directory iterators yield
them: a file that is neither a directory nor a symbolic link (a regular file,
or a device, pipe or socket, which the validators do not tell from one), a
directory with its own entries, or a symbolic link with the path it holds. -/
inductive dir_entries where
  | nil
  | file (name : String) (rest : dir_entries)
  | dir (name : String) (children : dir_entries) (rest : dir_entries)
  | link (name : String) (target : path) (rest : dir_entries)
deriving DecidableEq, Repr

/-- What is at a place of the tree, a symbolic link not being followed (what
`lstat` tells). -/
inductive node where
  | absent
  | file
  | dir (contents : dir_entries)
  | link (target : path)
deriving DecidableEq, Repr

/-- What `fs::status` tells about a path, symbolic links being followed, as
far as `fs::exists` and `fs::is_directory` read it: nothing is there, a file
that is no directory is there (`regular`), or a directory is there. -/
inductive file_status where
  | not_found
  | regular
  | directory (contents : dir_entries)
deriving DecidableEq, Repr

/-- The entry called `name` of a directory. -/
def dir_entries.child : dir_entries → String → node
  | .nil, _ => .absent
  | .file n rest, name => if n = name then .file else rest.child name
  | .dir n children rest, name =>
    if n = name then .dir children else rest.child name
  | .link n target rest, name => if n = name then .link target else rest.child name

/-- What is at the place with the names `cs` below a directory. Only a
directory has something below it. -/
def dir_entries.node_at : dir_entries → List String → node
  | d, [] => .dir d
  | d, c :: cs =>
    match d.child c with
    | .dir sub => sub.node_at cs
    | x => if cs.isEmpty then x else .absent

/-- Whether what was at a place is still there later: a file is still a file,
a symbolic link holds the same path, a directory is still a directory; where
nothing was, anything may be. -/
def node.kept_as : node → node → Bool
  | .absent, _ => true
  | .file, .file => true
  | .link t, .link u => t == u
  | .dir _, .dir _ => true
  | _, _ => false

/-- The names of the entries of a directory, as `fs::directory_iterator`
yields them. -/
def dir_entries.names : dir_entries → List String
  | .nil => []
  | .file n rest => n :: rest.names
  | .dir n _ rest => n :: rest.names
  | .link n _ rest => n :: rest.names

/-- The relative paths of all entries below a directory, as
`fs::recursive_directory_iterator` reaches them: each entry, and after a
directory the entries below it. A symbolic link is an entry; the iterator
does not go into the directory it may point to. -/
def dir_entries.walk : dir_entries → List (List String)
  | .nil => []
  | .file n rest => [n] :: rest.walk
  | .dir n children rest =>
    [n] :: (children.walk.map (fun rel => n :: rel) ++ rest.walk)
  | .link n _ rest => [n] :: rest.walk

/-- The directory with a new, empty directory `name` as its last entry. -/
def dir_entries.add_dir : dir_entries → String → dir_entries
  | .nil, name => .dir name .nil .nil
  | .file n rest, name => .file n (rest.add_dir name)
  | .dir n children rest, name => .dir n children (rest.add_dir name)
  | .link n target rest, name => .link n target (rest.add_dir name)

/-- The tree in which the directory at the place `cs` has the new, empty
directory `name` as its last entry. -/
def dir_entries.add_dir_at : dir_entries → List String → String → dir_entries
  | d, [], name => d.add_dir name
  | .nil, _ :: _, _ => .nil
  | .file n rest, c :: cs, name =>
    if n = c then .file n rest else .file n (rest.add_dir_at (c :: cs) name)
  | .dir n children rest, c :: cs, name =>
    if n = c then .dir n (children.add_dir_at cs name) rest
    else .dir n children (rest.add_dir_at (c :: cs) name)
  | .link n target rest, c :: cs, name =>
    if n = c then .link n target rest else .link n target (rest.add_dir_at (c :: cs) name)

/-- Whether a string can be the name of an entry: it is not empty, not one of
the two dot names and not the root name `/`. -/
def valid_name (n : String) : Bool :=
  decide (n ≠ "") && decide (n ≠ ".") && decide (n ≠ "..") && decide (n ≠ "/")

/-- Whether the tree is one a filesystem can hold: every name is the name of
an entry, and in every directory the names differ from one another. -/
def dir_entries.valid_names : dir_entries → Bool
  | .nil => true
  | .file n rest =>
    valid_name n && decide (rest.child n = .absent) && rest.valid_names
  | .dir n children rest =>
    valid_name n && decide (rest.child n = .absent) && children.valid_names
      && rest.valid_names
  | .link n _ rest =>
    valid_name n && decide (rest.child n = .absent) && rest.valid_names

/-- One pass of the resolution of a path, as the system does it for every
call that takes a path: from the directory at the place `cur` the components
are taken one by one; an empty component and `.` stay, `..` goes to the parent
(the root is its own parent), a name goes to the entry of that name. Only a
directory can be passed through. At a symbolic link the resolution goes on
with `again`, on the path the link holds followed by the components left: from
the root when that path is absolute, from the directory of the link otherwise.
The result is the place reached, in names below the root. -/
def follow_step (root : dir_entries)
    (again : List String → List String → Option (List String)) :
    List String → List String → Option (List String)
  | cur, [] => some cur
  | cur, c :: cs =>
    if c = "" ∨ c = "." then follow_step root again cur cs
    else if c = ".." then follow_step root again cur.dropLast cs
    else
      match root.node_at (cur ++ [c]) with
      | .absent => none
      | .file => if cs.isEmpty then some (cur ++ [c]) else none
      | .dir _ => follow_step root again (cur ++ [c]) cs
      | .link target =>
        if target = [] then none
        else if path.is_absolute target then again [] (target.tail ++ cs)
        else again cur (target ++ cs)

/-- The resolution of a path in which at most `n` symbolic links are
followed; with more the resolution fails, as with `ELOOP`. -/
def follow : Nat → dir_entries → List String → List String → Option (List String)
  | 0, root => follow_step root (fun _ _ => none)
  | n + 1, root => follow_step root (follow n root)

/-- The number of symbolic links the system follows in one resolution. -/
def SYMLOOP_MAX : Nat := 40

/-- The filesystem: the tree below the root directory, the place of the
current directory in names below the root, and the places of the directories
in which the system refuses to make a directory (no permission, a read-only
mount). -/
structure filesystem where
  root : dir_entries
  cwd : List String
  read_only : List (List String)
deriving DecidableEq, Repr

/-- What the validators read and change outside the configuration: the
filesystem, the number of child processes launched so far, and the section
headers printed so far. Of the messages only the header each validator prints
first is recorded; the others are informational. -/
structure world where
  fs : filesystem
  spawned : Nat
  trace : List String
deriving DecidableEq, Repr

/-- Facts of the host that the validators only read: the result of
`process::environment::find_executable("clang-format")`, the run of the child
process that the `n`-th launch of an executable starts (`none` when the launch
fails), and `std::thread::hardware_concurrency()`. -/
structure environment where
  find_executable : path
  launch : Nat → path → Option child_process
  hardware_concurrency : Nat

/-- The printing of a section header. -/
def world.print (w : world) (header : String) : world :=
  { w with trace := w.trace ++ [header] }

/-- The function `fs::current_path()`. -/
def current_path (fs : filesystem) : path := "/" :: fs.cwd

/-- The place that a path names, symbolic links being followed: a relative
path is taken from the current directory, the empty path names nothing. A
resolution that follows more than `SYMLOOP_MAX` links names nothing. -/
def filesystem.resolve (fs : filesystem) : path → Option (List String)
  | [] => none
  | c :: cs =>
    if c == "/" then follow SYMLOOP_MAX fs.root [] cs
    else follow SYMLOOP_MAX fs.root fs.cwd (c :: cs)

/-- The function `fs::status`: what is at the place the path names. -/
def fs_status (fs : filesystem) (p : path) : file_status :=
  match fs.resolve p with
  | none => .not_found
  | some place =>
    match fs.root.node_at place with
    | .dir d => .directory d
    | .file => .regular
    | _ => .not_found

/-- The function `fs::exists`. -/
def fs_exists (fs : filesystem) (p : path) : Bool :=
  match fs_status fs p with
  | .not_found => false
  | _ => true

/-- The function `fs::is_directory`. -/
def fs_is_directory (fs : filesystem) (p : path) : Bool :=
  match fs_status fs p with
  | .directory _ => true
  | _ => false

/-- The range of `fs::directory_iterator(p)`: the paths of the entries of the
directory. The constructor throws when `p` is not a directory. -/
def directory_iterator (fs : filesystem) (p : path) : Except exn (List path) :=
  match fs_status fs p with
  | .directory d => .ok (d.names.map (fun n => p ++ [n]))
  | _ => .error .filesystem_error

/-- The range of `fs::recursive_directory_iterator(p)`: the paths of all
entries below the directory. The constructor throws when `p` is not a
directory. -/
def recursive_directory_iterator (fs : filesystem) (p : path) :
    Except exn (List path) :=
  match fs_status fs p with
  | .directory d => .ok (d.walk.map (fun rel => p ++ rel))
  | _ => .error .filesystem_error

/-- One step of `path::lexically_normal()` over the components kept so far,
the last one first: an empty component and `.` are dropped, `..` takes the
component before it away unless that is `..` or the root. -/
def normal_push (kept : List String) (c : String) : List String :=
  if c = "" ∨ c = "." then kept
  else if c = ".." then
    match kept with
    | [] => [".."]
    | top :: below =>
      if top = ".." then ".." :: kept else if top = "/" then kept else below
  else c :: kept

/-- The member `path::lexically_normal()`; a trailing separator is not
kept. -/
def lexically_normal (p : path) : path :=
  if p = [] then []
  else
    let kept := (p.foldl normal_push []).reverse
    if kept = [] then ["."] else kept

/-- The function `std::mismatch` on the components of two paths: what is left
of each after their common start. -/
def mismatch : path → path → path × path
  | a :: p, b :: q => if a = b then mismatch p q else (a :: p, b :: q)
  | p, q => (p, q)

/-- The count `n` of `path::lexically_relative`: over the components left of
the base, `..` counts down, an empty component and `.` do not count, a name
counts up. -/
def dotdot_count : path → Int
  | [] => 0
  | c :: cs =>
    (if c = ".." then -1 else if c = "" ∨ c = "." then 0 else 1) + dotdot_count cs

/-- The member `path::lexically_relative(base)`: empty when only one of the
two is absolute or when the base climbs above the common start, `.` when
nothing is left of either, else one `..` for every name left of the base and
then what is left of the path. -/
def lexically_relative (p base : path) : path :=
  if path.is_absolute p != path.is_absolute base then []
  else
    let ab := mismatch p base
    if ab.1 = [] ∧ ab.2 = [] then ["."]
    else
      let n := dotdot_count ab.2
      if n < 0 then []
      else if n = 0 ∧ (ab.1 = [] ∨ ab.1.head? = some "") then ["."]
      else List.replicate n.toNat ".." ++ ab.1

/-- The function `fs::canonical` on a path that exists: the absolute path of
the place it names, without dot names and symbolic links. -/
def fs_canonical (fs : filesystem) (p : path) : path :=
  match fs.resolve p with
  | none => []
  | some place => "/" :: place

/-- The loop of `fs::weakly_canonical` that finds the longest leading part of
a path that exists: the part found and the components after it. -/
def existing_head (fs : filesystem) : path → List String → path × List String
  | head, [] => (head, [])
  | head, c :: cs =>
    if fs_exists fs (path.append head [c]) then
      existing_head fs (path.append head [c]) cs
    else (head, c :: cs)

/-- The function `fs::weakly_canonical`: the canonical path of a path that
exists; else the canonical path of its longest leading part that exists,
followed by the other components, normalised. -/
def weakly_canonical (fs : filesystem) (p : path) : path :=
  if fs_exists fs p then fs_canonical fs p
  else
    let found := existing_head fs [] p
    lexically_normal
      ((if found.1 = [] then [] else fs_canonical fs found.1) ++ found.2)

/-- The function `fs::relative(p, base)`. -/
def fs_relative (fs : filesystem) (p base : path) : path :=
  lexically_relative (weakly_canonical fs p) (weakly_canonical fs base)

/-- The function `fs::create_directory` (one `mkdir`): the filesystem after
the call, and the exception when it throws. The directory that is to hold the
new one must exist; when the name is there already the call does nothing, and
it throws unless the path is a directory; the system may refuse. -/
def fs_create_directory (fs : filesystem) (p : path) : filesystem × Option exn :=
  let name := path.filename p
  if name = "" ∨ name = "." ∨ name = ".." then
    (fs, if fs_is_directory fs p then none else some .filesystem_error)
  else
    let parent := if p.dropLast = [] then ["."] else p.dropLast
    match fs.resolve parent with
    | none => (fs, some .filesystem_error)
    | some place =>
      match fs.root.node_at place with
      | .dir _ =>
        match fs.root.node_at (place ++ [name]) with
        | .absent =>
          if fs.read_only.contains place then (fs, some .filesystem_error)
          else (⟨fs.root.add_dir_at place name, fs.cwd, fs.read_only⟩, none)
        | _ => (fs, if fs_is_directory fs p then none else some .filesystem_error)
      | _ => (fs, some .filesystem_error)

/-- The first loop of `fs::create_directories`: from `pp` upwards, the paths
that do not exist are collected, the highest one first, until a directory that
exists is reached; a dot name is passed over; the call throws when a path on
the way exists and is not a directory. The fuel is the number of components
of the path. -/
def missing_above (fs : filesystem) : Nat → path → List path → Except exn (List path)
  | 0, _, missing => .ok missing
  | fuel + 1, pp, missing =>
    let name := path.filename pp
    let missing := if name = "." ∨ name = ".." then missing else pp :: missing
    let pp := pp.dropLast
    if pp = [] then .ok missing
    else
      match fs_status fs pp with
      | .directory _ => .ok missing
      | .regular => .error .filesystem_error
      | .not_found => missing_above fs fuel pp missing

/-- The second loop of `fs::create_directories`: the collected paths are
created one after the other; the first call that throws ends the loop, and
what was created before stays. -/
def make_all : filesystem → List path → filesystem × Option exn
  | fs, [] => (fs, none)
  | fs, top :: rest =>
    let made := fs_create_directory fs top
    match made.2 with
    | some e => (made.1, some e)
    | none => make_all made.1 rest

/-- The function `fs::create_directories`: the filesystem after the call, and
the exception when it throws. Nothing is done when the path is a directory;
the call throws when the path is empty or exists and is not a directory. -/
def fs_create_directories (fs : filesystem) (p : path) : filesystem × Option exn :=
  if p = [] then (fs, some .filesystem_error)
  else
    match fs_status fs p with
    | .directory _ => (fs, none)
    | .regular => (fs, some .filesystem_error)
    | .not_found =>
      let pp := if p.getLast? = some "" then p.dropLast else p
      match missing_above fs pp.length pp [] with
      | .error e => (fs, some e)
      | .ok missing => make_all fs missing

/-! ## Layout matcher -/

/-- The loop of `equal_directory_layout` (lines 83 to 89) over the entries
the recursive iterator yields. -/
def equal_directory_layout_loop (fs : filesystem) (temp input : path) :
    List path → Bool
  | [] => true
  | it :: rest =>
    let input_relative := fs_relative fs it input
    let output_relative := path.append temp input_relative
    if !fs_exists fs output_relative then false
    else equal_directory_layout_loop fs temp input rest

/-- The function `equal_directory_layout` (lines 79 to 91). -/
def equal_directory_layout (fs : filesystem) (temp input : path) : Except exn Bool :=
  match recursive_directory_iterator fs input with
  | .error e => .error e
  | .ok entries => .ok (equal_directory_layout_loop fs temp input entries)

/-- The loop of `equal_subdirectory_layout` (lines 97 to 102) over the
entries of `temp`. -/
def equal_subdirectory_layout_loop (fs : filesystem) (input : path) :
    List path → Except exn Bool
  | [] => .ok true
  | p :: rest =>
    if !fs_is_directory fs p then .ok false
    else
      match equal_directory_layout fs p input with
      | .error e => .error e
      | .ok b =>
        if !b then .ok false
        else equal_subdirectory_layout_loop fs input rest

/-- The function `equal_subdirectory_layout` (lines 93 to 104). -/
def equal_subdirectory_layout (fs : filesystem) (temp input : path) :
    Except exn Bool :=
  match directory_iterator fs temp with
  | .error e => .error e
  | .ok entries => equal_subdirectory_layout_loop fs input entries

/-! ## Validators -/

/-- What a validator returns and leaves behind: the boolean it returns, the
configuration and the world after the call. -/
structure result where
  ok : Bool
  config : cli_config
  world : world
deriving DecidableEq, Repr

/-- An exception that leaves a validator: the exception, and the
configuration and the world as they are when it is thrown. -/
structure thrown where
  what : exn
  config : cli_config
  world : world
deriving DecidableEq, Repr

/-- The function `validate_input_dir` (lines 106 to 135); the configuration
is passed by const reference. -/
def validate_input_dir (config : cli_config) (w : world) : result :=
  let w := w.print "## Validating input"
  if path.empty config.input then ⟨false, config, w⟩
  else if !fs_exists w.fs config.input then ⟨false, config, w⟩
  else if !fs_is_directory w.fs config.input then ⟨false, config, w⟩
  else ⟨true, config, w⟩

/-- The function `validate_output_dir` (lines 137 to 182). -/
def validate_output_dir (config : cli_config) (w : world) : result :=
  let w := w.print "## Validating output"
  let config :=
    if path.empty config.output then
      { config with output := path.append config.input [".clang-format"] }
    else config
  let checked : result :=
    if path.filename config.output ≠ ".clang-format" then ⟨false, config, w⟩
    else ⟨true, config, w⟩
  if fs_exists w.fs config.output then
    if fs_is_directory w.fs config.output then
      ⟨false, { config with output := path.append config.output [".clang-format"] }, w⟩
    else checked
  else checked

/-- The function `validate_temp_dir` (lines 184 to 239). -/
def validate_temp_dir (config : cli_config) (w : world) : Except thrown result :=
  let w := w.print "## Validating temp"
  let config :=
    if path.empty config.temp then
      { config with temp := path.append (current_path w.fs) ["clang-unformat-temp"] }
    else config
  if fs_exists w.fs config.temp then
    if !fs_is_directory w.fs config.temp then .ok ⟨false, config, w⟩
    else
      match directory_iterator w.fs config.temp with
      | .error e => .error ⟨e, config, w⟩
      | .ok entries =>
        let n_files := entries.length
        if n_files ≠ 0 then
          match equal_directory_layout w.fs config.temp config.input with
          | .error e => .error ⟨e, config, w⟩
          | .ok true => .ok ⟨true, config, w⟩
          | .ok false =>
            match equal_subdirectory_layout w.fs config.temp config.input with
            | .error e => .error ⟨e, config, w⟩
            | .ok true => .ok ⟨true, config, w⟩
            | .ok false => .ok ⟨false, config, w⟩
        else .ok ⟨true, config, w⟩
  else
    let made := fs_create_directories w.fs config.temp
    match made.2 with
    | some e => .error ⟨e, config, { w with fs := made.1 }⟩
    | none => .ok ⟨true, config, { w with fs := made.1 }⟩

/-- The function `set_clang_format_version` (lines 243 to 374): the child
process is launched, the event loop runs, and `success` is returned. An
exception of a completion handler leaves the function after the launch. -/
def set_clang_format_version (env : environment) (config : cli_config) (w : world) :
    Except thrown result :=
  match env.launch w.spawned config.clang_format with
  | none => .error ⟨.system_error, config, w⟩
  | some child =>
    match run (schedule child) (probe_init config) with
    | .error e => .error ⟨e, config, { w with spawned := w.spawned + 1 }⟩
    | .ok s => .ok ⟨s.success, s.config, { w with spawned := w.spawned + 1 }⟩

/-- The function `validate_clang_format_executable` (lines 376 to 408). The
value `set_clang_format_version` returns is not used. -/
def validate_clang_format_executable (env : environment) (config : cli_config)
    (w : world) : Except thrown result :=
  let w := w.print "## Validating clang-format"
  if path.empty config.clang_format then
    let config := { config with clang_format := env.find_executable }
    if fs_exists w.fs config.clang_format then
      match set_clang_format_version env config w with
      | .error e => .error e
      | .ok r1 =>
        match set_clang_format_version env r1.config r1.world with
        | .error e => .error e
        | .ok r2 => .ok ⟨true, r2.config, r2.world⟩
    else .ok ⟨false, config, w⟩
  else if !fs_exists w.fs config.clang_format then .ok ⟨false, config, w⟩
  else
    match set_clang_format_version env config w with
    | .error e => .error e
    | .ok r => .ok ⟨true, r.config, r.world⟩

/-- The function `validate_file_extensions` (lines 410 to 429). -/
def validate_file_extensions (config : cli_config) (w : world) : result :=
  let w := w.print "## Validating file extensions"
  let config :=
    if config.extensions.isEmpty then
      { config with extensions := ["h", "hpp", "cpp", "ipp"] }
    else config
  ⟨true, config, w⟩

/-- The function `validate_threads` (lines 431 to 453). -/
def validate_threads (env : environment) (config : cli_config) (w : world) : result :=
  let w := w.print "## Validating threads"
  let config :=
    if config.parallel = 0 then
      { config with parallel := max env.hardware_concurrency 1 }
    else config
  ⟨true, config, w⟩

/-- The function `validate_config` (lines 455 to 470): each `CHECK` returns
false from the function when its validator returns false. -/
def validate_config (env : environment) (config : cli_config) (w : world) :
    Except thrown result :=
  let r1 := validate_input_dir config w
  if !r1.ok then .ok ⟨false, r1.config, r1.world⟩
  else
    let r2 := validate_output_dir r1.config r1.world
    if !r2.ok then .ok ⟨false, r2.config, r2.world⟩
    else
      match validate_temp_dir r2.config r2.world with
      | .error e => .error e
      | .ok r3 =>
        if !r3.ok then .ok ⟨false, r3.config, r3.world⟩
        else
          match validate_clang_format_executable env r3.config r3.world with
          | .error e => .error e
          | .ok r4 =>
            if !r4.ok then .ok ⟨false, r4.config, r4.world⟩
            else
              let r5 := validate_file_extensions r4.config r4.world
              if !r5.ok then .ok ⟨false, r5.config, r5.world⟩
              else
                let r6 := validate_threads env r5.config r5.world
                if !r6.ok then .ok ⟨false, r6.config, r6.world⟩
                else .ok ⟨true, r6.config, r6.world⟩

/-- The world a call leaves behind, whether it returns or throws. -/
def outcome_world : Except thrown result → world
  | .ok r => r.world
  | .error t => t.world

/-! ## The pipeline of the specification -/

/-- A sub-check of the validation: it returns a boolean and leaves a
configuration and a world behind, or throws. -/
abbrev sub_check := cli_config → world → Except thrown result

/-- The fail-fast pipeline as the specification words it: the sub-checks run
in the order of the list, each on what its predecessor left behind; the first
one that fails ends the validation with failure, and none after it runs; when
all succeed the validation succeeds. -/
def fail_fast : List sub_check → cli_config → world → Except thrown result
  | [], config, w => .ok ⟨true, config, w⟩
  | check :: rest, config, w =>
    match check config w with
    | .error e => .error e
    | .ok r =>
      if r.ok then fail_fast rest r.config r.world
      else .ok ⟨false, r.config, r.world⟩

/-- The section headers of the six validators, in the order of
`validate_config`. -/
def section_headers : List String :=
  ["## Validating input", "## Validating output", "## Validating temp",
   "## Validating clang-format", "## Validating file extensions",
   "## Validating threads"]

/-! ## Sample hosts -/

/-- A host on which every launch starts the same run of the child process,
`find_executable` finds nothing and one hardware thread is reported. -/
def host_running (child : child_process) : environment :=
  { find_executable := [], launch := fun _ _ => some child, hardware_concurrency := 1 }

/-- A tree with the source directory `/src`, the tool `/usr/bin/clang-format`
and the empty directory `/empty`. -/
def sample_root : dir_entries :=
  .dir "src" (.dir "lib" (.file "a.cpp" .nil) (.file "main.cpp" .nil))
    (.dir "usr" (.dir "bin" (.file "clang-format" .nil) .nil)
      (.dir "empty" .nil .nil))

/-- A tree with symbolic links: in `/a` the file `x`, the link `l` to the file
`/b/y` and the link `up` to the directory `/b`; beside it the directory `/b`,
the link `/s` to the directory `/a`, and the directory `/c` with the link
`gone`, which points to nothing. -/
def linked_root : dir_entries :=
  .dir "a" (.file "x" (.link "l" ["/", "b", "y"] (.link "up" ["..", "b"] .nil)))
    (.dir "b" (.file "y" .nil)
      (.link "s" ["a"] (.dir "c" (.link "gone" ["/", "nowhere"] .nil) .nil)))

/-- The filesystem on `linked_root`, the current directory being the root. -/
def linked_fs : filesystem := { root := linked_root, cwd := [], read_only := [] }

/-- The filesystem on `sample_root`, the current directory being the root. -/
def sample_fs : filesystem := { root := sample_root, cwd := [], read_only := [] }

/-- The filesystem on `sample_root` in which the system lets no directory be
made in `/tmp`. -/
def guarded_fs : filesystem := { root := sample_root, cwd := [], read_only := [["tmp"]] }

/-- A world on `sample_fs`, before anything was launched or printed. -/
def sample_world : world := { fs := sample_fs, spawned := 0, trace := [] }

/-- A configuration for `sample_world`: the input and the tool are given, the
output is left to its default and the temporary directory does not exist
yet. -/
def sample_config : cli_config :=
  { help := false, input := ["/", "src"], output := [],
    temp := ["/", "tmp", "clang-unformat-temp"],
    clang_format := ["/", "usr", "bin", "clang-format"],
    clang_format_version := 0, extensions := [], parallel := 0,
    require_influence := false }

/-! ## Lemmas on the version probe -/

theorem getline_line (l r : List Char) (h : '\n' ∉ l) :
    getline (l ++ '\n' :: r) = (l, r) := by
  induction l with
  | nil => simp [getline]
  | cons c cs ih =>
    have hc : c ≠ '\n' := fun e => h (by simp [e])
    have hcs : '\n' ∉ cs := fun e => h (by simp [e])
    simp [getline, hc, ih hcs]

theorem pipe_reads_line (l rest acc : List Char) (h : '\n' ∉ l) :
    pipe_reads (l ++ '\n' :: rest) acc
      = .read .success (acc.reverse ++ l ++ ['\n']) :: pipe_reads rest [] := by
  induction l generalizing acc with
  | nil => simp [pipe_reads]
  | cons c cs ih =>
    have hc : c ≠ '\n' := fun e => h (by simp [e])
    have hcs : '\n' ∉ cs := fun e => h (by simp [e])
    simp [pipe_reads, hc, ih (c :: acc) hcs]

theorem sv_find_needle_head (tail : List Char) :
    sv_find (needle ++ tail) needle = 0 := by
  simp [sv_find, needle, find_at, starts_with]

theorem not_mem_needle_append (tail : List Char) (h : '\n' ∉ tail) :
    '\n' ∉ needle ++ tail := by
  intro hm
  rcases List.mem_append.1 hm with h1 | h1
  · revert h1; simp [needle]
  · exact h h1

/-- A line that begins with the marker sends `read_cb_inner` to `next_read`:
`find` returns 0 there, and the test `!(clang_version_off = ...)` takes 0 for
"not found". -/
theorem read_cb_inner_banner_head (config : cli_config) (b : Bool)
    (tail rest : List Char) (h : '\n' ∉ tail) :
    read_cb_inner .success
        { config := config, success := b, buffer := needle ++ tail ++ '\n' :: rest,
          reading := false }
      = .ok { config := config, success := b, buffer := rest, reading := true } := by
  have hne : (needle ++ tail).isEmpty = false := by simp [needle]
  simp only [read_cb_inner, getline_line _ _ (not_mem_needle_append tail h),
    sv_find_needle_head, hne]
  simp

theorem deliver_banner_head (config : cli_config) (b : Bool) (tail : List Char)
    (h : '\n' ∉ tail) :
    deliver (.read .success (needle ++ tail ++ ['\n']))
        { config := config, success := b, buffer := [], reading := true }
      = .ok { config := config, success := b, buffer := [], reading := true } := by
  simp only [deliver, if_true, List.nil_append]
  exact read_cb_inner_banner_head config b tail [] h

theorem deliver_eof (config : cli_config) (b : Bool) (buf data : List Char) :
    deliver (.read .eof data)
        { config := config, success := b, buffer := buf, reading := true }
      = .ok { config := config, success := false, buffer := buf ++ data,
              reading := false } := by
  simp [deliver, read_cb_inner]

theorem deliver_exit_normal (s : probe_state) : deliver (.exit false 0) s = .ok s := by
  simp [deliver, exit_cb]

theorem deliver_read_pending (ec : error_code) (data : List Char) (c : cli_config)
    (b : Bool) (buf : List Char) :
    deliver (.read ec data) { config := c, success := b, buffer := buf, reading := true }
      = read_cb_inner ec
          { config := c, success := b, buffer := buf ++ data, reading := false } :=
  rfl

theorem deliver_read_idle (ec : error_code) (data : List Char) (c : cli_config)
    (b : Bool) (buf : List Char) :
    deliver (.read ec data) { config := c, success := b, buffer := buf, reading := false }
      = .ok { config := c, success := b, buffer := buf, reading := false } :=
  rfl

theorem run_cons (e : event) (es : List event) (s : probe_state) :
    run (e :: es) s
      = match deliver e s with
        | .error x => .error x
        | .ok s' => run es s' :=
  rfl

theorem run_nil (s : probe_state) : run [] s = .ok s := rfl

/-- A line without the marker at its start whose text from the computed
position on has no `.` ends the probe: `success` is false and no read is
issued. -/
theorem read_cb_inner_no_dot (config : cli_config) (b : Bool) (l rest lv : List Char)
    (hl : '\n' ∉ l) (hne : l ≠ [])
    (hoff : sv_find l needle ≠ 0)
    (hsub : substr l ((sv_find l needle + needle.length) % 2 ^ SIZE_WIDTH) l.length
      = .ok lv)
    (hdot : find_first_of lv '.' = npos) :
    read_cb_inner .success
        { config := config, success := b, buffer := l ++ '\n' :: rest, reading := false }
      = .ok { config := config, success := false, buffer := rest, reading := false } := by
  have hne2 : l.isEmpty = false := by
    cases l with
    | nil => exact absurd rfl hne
    | cons a t => rfl
  simp only [read_cb_inner, getline_line _ _ hl, hne2, hsub, hdot]
  simp [hoff]

theorem run_append (es fs : List event) (s : probe_state) :
    run (es ++ fs) s
      = match run es s with
        | .error x => .error x
        | .ok s' => run fs s' := by
  induction es generalizing s with
  | nil => simp [run]
  | cons e es ih =>
    simp only [List.cons_append, run]
    cases deliver e s with
    | error x => simp
    | ok s' => simpa using ih s'

/-- A normal exit (no error, exit code 0) changes nothing, wherever the event
loop dispatches it: the probe is decided by the read completions alone. -/
theorem run_schedule_normal_exit (out : List Char) (k : Nat) (s : probe_state) :
    run (schedule ⟨out, false, 0, k⟩) s = run (pipe_reads out []) s := by
  have h : ∀ (es fs : List event) (s : probe_state),
      run (es ++ .exit false 0 :: fs) s = run (es ++ fs) s := by
    intro es fs s
    rw [run_append, run_append]
    cases run es s with
    | error x => rfl
    | ok s' => simp [run, deliver_exit_normal]
  simp only [schedule]
  rw [h, List.take_append_drop]

/-- For every version text after a marker that starts the line, the probe
ends without success and without a stored version, whatever the place of the
normal exit among the read completions. -/
theorem run_banner_head (config : cli_config) (tail : List Char) (k : Nat)
    (h : '\n' ∉ tail) :
    run (schedule ⟨needle ++ tail ++ ['\n'], false, 0, k⟩) (probe_init config)
      = .ok { config := config, success := false, buffer := [], reading := false } := by
  have hreads : pipe_reads (needle ++ tail ++ ['\n']) []
      = [.read .success (needle ++ tail ++ ['\n']), .read .eof []] := by
    have := pipe_reads_line (needle ++ tail) [] [] (not_mem_needle_append tail h)
    simpa [pipe_reads] using this
  rw [run_schedule_normal_exit, hreads]
  simp only [probe_init, run, deliver_banner_head _ _ _ h, deliver_eof, List.append_nil]

/-! ## The version probe: claims -/

/-- C1 (defect of the code): the child prints the single line
`clang-format version 14.0.0` and exits with code 0, and
`set_clang_format_version` returns false and leaves the configuration as it
was, for every configuration, world and place of the exit completion. The
marker starts the line, `find` returns 0, and line 311 reads 0 as "marker
absent": the line is skipped and the next read meets the end of the stream. -/
theorem set_clang_format_version_plain_banner (config : cli_config) (w : world)
    (k : Nat) :
    set_clang_format_version
        (host_running ⟨"clang-format version 14.0.0\n".toList, false, 0, k⟩) config w
      = .ok ⟨false, config, { w with spawned := w.spawned + 1 }⟩ := by
  have h := run_banner_head config "14.0.0".toList k (by decide)
  have e : needle ++ "14.0.0".toList ++ ['\n']
      = "clang-format version 14.0.0\n".toList := by decide
  rw [e] at h
  simp only [set_clang_format_version, host_running, h]

/-- C9 (defect of the code): the child prints a version line the probe can
parse and exits with code 1; when the exit completion is dispatched before the
read completion, the later `success = true` of line 353 overwrites the failure
and `set_clang_format_version` returns true with version 14. -/
theorem set_clang_format_version_exit_code_lost (config : cli_config) (w : world) :
    set_clang_format_version
        (host_running ⟨"Ubuntu clang-format version 14.0.0\n".toList, false, 1, 0⟩)
        config w
      = .ok ⟨true, { config with clang_format_version := 14 },
          { w with spawned := w.spawned + 1 }⟩ := by
  rfl

/-- C10 (defect of the code): the child prints a line without the marker,
then a version line, and exits with code 0. The first line is not discarded:
`find` returns `npos`, which line 311 reads as "marker present", the text from
position 20 on has no `.`, and the probe ends without success, without a
version and without reading the version line, wherever the exit completion is
dispatched. -/
theorem set_clang_format_version_preamble_line (config : cli_config) (w : world)
    (k : Nat) :
    set_clang_format_version
        (host_running
          ⟨"LLVM (http://llvm.org/):\nUbuntu clang-format version 14.0.0\n".toList,
            false, 0, k⟩) config w
      = .ok ⟨false, config, { w with spawned := w.spawned + 1 }⟩ := by
  have hreads : pipe_reads
      "LLVM (http://llvm.org/):\nUbuntu clang-format version 14.0.0\n".toList []
      = [.read .success ("LLVM (http://llvm.org/):".toList ++ '\n' :: []),
         .read .success "Ubuntu clang-format version 14.0.0\n".toList,
         .read .eof []] := by rfl
  have hrun : run (pipe_reads
      "LLVM (http://llvm.org/):\nUbuntu clang-format version 14.0.0\n".toList [])
      (probe_init config)
      = .ok { config := config, success := false, buffer := [], reading := false } := by
    rw [hreads, probe_init, run_cons, deliver_read_pending, List.nil_append,
      read_cb_inner_no_dot config false "LLVM (http://llvm.org/):".toList []
        "g/):".toList (by decide) (by decide) (by decide) (by rfl) (by rfl)]
    simp only [run_cons, run_nil, deliver_read_idle]
  simp only [set_clang_format_version, host_running, run_schedule_normal_exit, hrun]

/-! ## Lemmas on paths and the filesystem -/

theorem fs_status_nil (fs : filesystem) : fs_status fs [] = .not_found := rfl

theorem ne_nil_of_is_directory (fs : filesystem) (p : path)
    (h : fs_is_directory fs p = true) : p ≠ [] := by
  intro e
  subst e
  simp [fs_is_directory, fs_status_nil] at h

theorem status_of_is_directory (fs : filesystem) (p : path)
    (h : fs_is_directory fs p = true) : ∃ d, fs_status fs p = .directory d := by
  unfold fs_is_directory at h
  cases hs : fs_status fs p with
  | not_found => simp [hs] at h
  | regular => simp [hs] at h
  | directory d => exact ⟨d, rfl⟩

theorem exists_of_is_directory (fs : filesystem) (p : path)
    (h : fs_is_directory fs p = true) : fs_exists fs p = true := by
  obtain ⟨d, hd⟩ := status_of_is_directory fs p h
  simp [fs_exists, hd]

theorem equal_directory_layout_loop_true (fs : filesystem) (temp input : path)
    (entries : List path) :
    equal_directory_layout_loop fs temp input entries = true ↔
      ∀ e ∈ entries,
        fs_exists fs (path.append temp (fs_relative fs e input)) = true := by
  induction entries with
  | nil => simp [equal_directory_layout_loop]
  | cons e rest ih =>
    simp only [equal_directory_layout_loop, List.mem_cons, forall_eq_or_imp]
    cases hx : fs_exists fs (path.append temp (fs_relative fs e input)) with
    | false => simp
    | true => simpa using ih

theorem print_fs (w : world) (header : String) : (w.print header).fs = w.fs := rfl

theorem path_empty_eq_false (p : path) (h : p ≠ []) : path.empty p = false := by
  cases p with
  | nil => exact absurd rfl h
  | cons c cs => rfl

theorem append_clang_format (D : path) :
    path.append D [".clang-format"] = D ++ [".clang-format"] := by
  have h : path.is_absolute [".clang-format"] = false := by decide
  simp [path.append, h]

/-- The function `validate_output_dir` in terms of the path `D` it validates:
the given output, or `input / ".clang-format"` for an empty output. -/
theorem validate_output_dir_eq (config : cli_config) (w : world) (D : path)
    (hD : D = if path.empty config.output = true
      then path.append config.input [".clang-format"] else config.output) :
    validate_output_dir config w
      = if fs_exists w.fs D = true ∧ fs_is_directory w.fs D = true then
          ⟨false, { config with output := path.append D [".clang-format"] },
            w.print "## Validating output"⟩
        else if path.filename D ≠ ".clang-format" then
          ⟨false, { config with output := D }, w.print "## Validating output"⟩
        else ⟨true, { config with output := D }, w.print "## Validating output"⟩ := by
  subst hD
  unfold validate_output_dir
  by_cases he : path.empty config.output = true
  · simp only [he, if_true, print_fs]
    cases hx : fs_exists w.fs (path.append config.input [".clang-format"]) <;>
      cases hy : fs_is_directory w.fs (path.append config.input [".clang-format"]) <;>
      simp [hx, hy]
  · have hc : ({ config with output := config.output } : cli_config) = config := rfl
    simp only [he, print_fs, hc]
    cases hx : fs_exists w.fs config.output <;>
      cases hy : fs_is_directory w.fs config.output <;> simp [hx, hy, hc]

/-- C6: when the output path `D` (as given, or `input / ".clang-format"` for
an empty output) exists and is a directory, `validate_output_dir` returns
false and leaves `D / ".clang-format"` as `config.output`; nothing else of the
configuration and nothing of the filesystem changes. -/
theorem validate_output_dir_directory (config : cli_config) (w : world) (D : path)
    (hD : D = if path.empty config.output = true
      then path.append config.input [".clang-format"] else config.output)
    (hex : fs_exists w.fs D = true) (hdir : fs_is_directory w.fs D = true) :
    validate_output_dir config w
        = ⟨false, { config with output := D ++ [".clang-format"] },
            w.print "## Validating output"⟩ ∧
      path.append D [".clang-format"] = D ++ [".clang-format"] := by
  refine ⟨?_, append_clang_format D⟩
  rw [validate_output_dir_eq config w D hD, append_clang_format]
  simp [hex, hdir]

/-- C6, at the directory `/src` as output in the sample world. -/
theorem validate_output_dir_directory_witness :
    (fs_exists sample_world.fs ["/", "src"] = true ∧
      fs_is_directory sample_world.fs ["/", "src"] = true) ∧
    validate_output_dir { sample_config with output := ["/", "src"] } sample_world
      = ⟨false, { sample_config with output := ["/", "src", ".clang-format"] },
          sample_world.print "## Validating output"⟩ :=
  ⟨⟨by decide, by decide⟩,
    (validate_output_dir_directory { sample_config with output := ["/", "src"] }
      sample_world ["/", "src"] rfl (by decide) (by decide)).1⟩

theorem validate_input_dir_world (config : cli_config) (w : world) :
    (validate_input_dir config w).world = w.print "## Validating input" ∧
      (validate_input_dir config w).config = config := by
  unfold validate_input_dir
  simp only []
  split_ifs <;> exact ⟨rfl, rfl⟩

theorem validate_output_dir_world (config : cli_config) (w : world) :
    (validate_output_dir config w).world = w.print "## Validating output" := by
  rw [validate_output_dir_eq config w _ rfl]
  split_ifs <;> rfl

theorem validate_temp_dir_trace (config : cli_config) (w : world) (r : result)
    (h : validate_temp_dir config w = .ok r) :
    r.world.trace = w.trace ++ ["## Validating temp"] ∧
      r.world.spawned = w.spawned := by
  unfold validate_temp_dir at h
  simp only [] at h
  repeat' split at h
  all_goals first
    | (cases h; done)
    | (cases h; exact ⟨rfl, rfl⟩)

theorem set_clang_format_version_world (env : environment) (config : cli_config)
    (w : world) (r : result) (h : set_clang_format_version env config w = .ok r) :
    r.world = { w with spawned := w.spawned + 1 } := by
  unfold set_clang_format_version at h
  split at h
  · cases h
  · split at h
    · cases h
    · cases h; rfl

theorem validate_clang_format_executable_trace (env : environment)
    (config : cli_config) (w : world) (r : result)
    (h : validate_clang_format_executable env config w = .ok r) :
    r.world.trace = w.trace ++ ["## Validating clang-format"] := by
  unfold validate_clang_format_executable at h
  simp only [] at h
  split at h
  · split at h
    · split at h
      · cases h
      · rename_i r1 h1
        split at h
        · cases h
        · rename_i r2 h2
          cases h
          have e1 := set_clang_format_version_world _ _ _ _ h1
          have e2 := set_clang_format_version_world _ _ _ _ h2
          simp only [e2, e1]
          rfl
    · cases h; rfl
  · split at h
    · cases h; rfl
    · split at h
      · cases h
      · rename_i r1 h1
        cases h
        have e1 := set_clang_format_version_world _ _ _ _ h1
        simp only [e1]
        rfl

theorem result_eta_false (r : result) (h : r.ok = false) :
    (⟨false, r.config, r.world⟩ : result) = r := by
  cases r
  simp only at h
  subst h
  rfl

theorem validate_file_extensions_world (config : cli_config) (w : world) :
    (validate_file_extensions config w).world = w.print "## Validating file extensions" ∧
      (validate_file_extensions config w).ok = true := ⟨rfl, rfl⟩

theorem validate_threads_world (env : environment) (config : cli_config) (w : world) :
    (validate_threads env config w).world = w.print "## Validating threads" ∧
      (validate_threads env config w).ok = true := ⟨rfl, rfl⟩

/-- The function `validate_config` is the fail-fast pipeline of the
specification over the six validators in the order input, output, temp, tool,
extensions, threads. -/
theorem validate_config_eq_fail_fast (env : environment) (config : cli_config)
    (w : world) :
    validate_config env config w
      = fail_fast
          [fun c v => .ok (validate_input_dir c v),
           fun c v => .ok (validate_output_dir c v),
           validate_temp_dir,
           validate_clang_format_executable env,
           fun c v => .ok (validate_file_extensions c v),
           fun c v => .ok (validate_threads env c v)] config w := by
  unfold validate_config
  simp only [fail_fast]
  cases h1 : (validate_input_dir config w).ok
  · simp
  · simp only [Bool.not_true, Bool.false_eq_true, if_false, if_true]
    cases h2 : (validate_output_dir (validate_input_dir config w).config
        (validate_input_dir config w).world).ok
    · simp
    · simp only [Bool.not_true, Bool.false_eq_true, if_false, if_true]
      cases h3 : validate_temp_dir
          (validate_output_dir (validate_input_dir config w).config
            (validate_input_dir config w).world).config
          (validate_output_dir (validate_input_dir config w).config
            (validate_input_dir config w).world).world with
      | error e => rfl
      | ok r3 =>
        simp only []
        cases h3o : r3.ok
        · simp
        · simp only [Bool.not_true, Bool.false_eq_true, if_false, if_true]
          cases h4 : validate_clang_format_executable env r3.config r3.world with
          | error e => rfl
          | ok r4 =>
            simp only []
            cases h4o : r4.ok
            · simp
            · simp [validate_file_extensions, validate_threads]

/-- What `validate_config` returns, sub-check by sub-check: the result of the
first validator that returns false, or the result of `validate_threads` when
none does. -/
theorem validate_config_steps (env : environment) (config : cli_config) (w : world)
    (r1 r2 : result) (h1 : r1 = validate_input_dir config w)
    (h2 : r2 = validate_output_dir r1.config r1.world) :
    (r1.ok = false → validate_config env config w = .ok r1) ∧
    (r1.ok = true → r2.ok = false → validate_config env config w = .ok r2) ∧
    (r1.ok = true → r2.ok = true →
      (∀ e, validate_temp_dir r2.config r2.world = .error e →
        validate_config env config w = .error e) ∧
      ∀ r3, validate_temp_dir r2.config r2.world = .ok r3 →
        (r3.ok = false → validate_config env config w = .ok r3) ∧
        (r3.ok = true →
          (∀ e, validate_clang_format_executable env r3.config r3.world = .error e →
            validate_config env config w = .error e) ∧
          ∀ r4, validate_clang_format_executable env r3.config r3.world = .ok r4 →
            (r4.ok = false → validate_config env config w = .ok r4) ∧
            (r4.ok = true →
              validate_config env config w
                = .ok (validate_threads env
                    (validate_file_extensions r4.config r4.world).config
                    (validate_file_extensions r4.config r4.world).world)))) := by
  subst h1
  subst h2
  refine ⟨?_, ?_, ?_⟩
  · intro a
    unfold validate_config
    simp [a, result_eta_false _ a]
  · intro a b
    unfold validate_config
    simp [a, b, result_eta_false _ b]
  · intro a b
    refine ⟨?_, ?_⟩
    · intro e he
      unfold validate_config
      simp [a, b, he]
    · intro r3 h3
      refine ⟨?_, ?_⟩
      · intro c
        unfold validate_config
        simp [a, b, h3, c, result_eta_false _ c]
      · intro c
        refine ⟨?_, ?_⟩
        · intro e he
          unfold validate_config
          simp [a, b, h3, c, he]
        · intro r4 h4
          refine ⟨?_, ?_⟩
          · intro d
            unfold validate_config
            simp [a, b, h3, c, h4, d, result_eta_false _ d]
          · intro d
            unfold validate_config
            simp [a, b, h3, c, h4, d, validate_file_extensions, validate_threads]

/-! ## The pipeline: claims -/

/-- C8: `validate_config` is the fail-fast pipeline of the specification over
the validators in the order input, output, temp, tool, extensions, threads.
When it returns, the headers printed are the first `n` of the six section
headers, in that order, and it returns true exactly when `n = 6`, that is when
all six sub-checks ran and none failed. When a sub-check returns false, the
result of `validate_config` is the result of that sub-check: the configuration
and the world are as it left them, and no later sub-check ran. -/
theorem validate_config_fail_fast (env : environment) (config : cli_config)
    (w : world) :
    validate_config env config w
      = fail_fast
          [fun c v => .ok (validate_input_dir c v),
           fun c v => .ok (validate_output_dir c v),
           validate_temp_dir,
           validate_clang_format_executable env,
           fun c v => .ok (validate_file_extensions c v),
           fun c v => .ok (validate_threads env c v)] config w ∧
    (∀ r, validate_config env config w = .ok r →
      ∃ n, 1 ≤ n ∧ n ≤ 6 ∧ r.world.trace = w.trace ++ section_headers.take n ∧
        (r.ok = true ↔ n = 6)) ∧
    ((validate_input_dir config w).ok = false →
      validate_config env config w = .ok (validate_input_dir config w)) ∧
    ((validate_input_dir config w).ok = true →
      (validate_output_dir config (w.print "## Validating input")).ok = false →
      validate_config env config w
        = .ok (validate_output_dir config (w.print "## Validating input"))) ∧
    ((validate_input_dir config w).ok = true →
      (validate_output_dir config (w.print "## Validating input")).ok = true →
      ∀ r3,
        validate_temp_dir
            (validate_output_dir config (w.print "## Validating input")).config
            ((w.print "## Validating input").print "## Validating output") = .ok r3 →
        (r3.ok = false → validate_config env config w = .ok r3) ∧
        (r3.ok = true →
          ∀ r4, validate_clang_format_executable env r3.config r3.world = .ok r4 →
            (r4.ok = false → validate_config env config w = .ok r4) ∧
            (r4.ok = true →
              validate_config env config w
                = .ok (validate_threads env
                    (validate_file_extensions r4.config r4.world).config
                    (validate_file_extensions r4.config r4.world).world)))) := by
  have hs := validate_config_steps env config w _ _ rfl rfl
  have hi := validate_input_dir_world config w
  have ho := validate_output_dir_world config (w.print "## Validating input")
  rw [hi.1, hi.2, ho] at hs
  obtain ⟨s1, s2, s3⟩ := hs
  refine ⟨validate_config_eq_fail_fast env config w, ?_, s1, s2, ?_⟩
  · intro r hr
    cases a : (validate_input_dir config w).ok with
    | false =>
      rw [s1 a] at hr
      cases hr
      refine ⟨1, by omega, by omega, ?_, ?_⟩
      · rw [hi.1]; rfl
      · simp [a]
    | true =>
      cases b : (validate_output_dir config (w.print "## Validating input")).ok with
      | false =>
        rw [s2 a b] at hr
        cases hr
        refine ⟨2, by omega, by omega, ?_, ?_⟩
        · rw [ho]; simp [world.print, section_headers]
        · simp [b]
      | true =>
        obtain ⟨s3e, s3o⟩ := s3 a b
        cases h3 : validate_temp_dir
            (validate_output_dir config (w.print "## Validating input")).config
            ((w.print "## Validating input").print "## Validating output") with
        | error e => rw [s3e e h3] at hr; cases hr
        | ok r3 =>
          have t3 := (validate_temp_dir_trace _ _ _ h3).1
          cases c : r3.ok with
          | false =>
            rw [(s3o r3 h3).1 c] at hr
            cases hr
            refine ⟨3, by omega, by omega, ?_, ?_⟩
            · rw [t3]; simp [world.print, section_headers]
            · simp [c]
          | true =>
            obtain ⟨s4e, s4o⟩ := (s3o r3 h3).2 c
            cases h4 : validate_clang_format_executable env r3.config r3.world with
            | error e => rw [s4e e h4] at hr; cases hr
            | ok r4 =>
              have t4 := validate_clang_format_executable_trace _ _ _ _ h4
              cases d : r4.ok with
              | false =>
                rw [(s4o r4 h4).1 d] at hr
                cases hr
                refine ⟨4, by omega, by omega, ?_, ?_⟩
                · rw [t4, t3]; simp [world.print, section_headers]
                · simp [d]
              | true =>
                rw [(s4o r4 h4).2 d] at hr
                cases hr
                refine ⟨6, by omega, by omega, ?_, ?_⟩
                · simp [validate_threads, validate_file_extensions, world.print,
                    section_headers, t4, t3]
                · simp [validate_threads]
  · intro a b r3 h3
    exact (s3 a b).2 r3 h3 |>.imp id (fun f c => (f c).2)

/-- With a tool path that is given and exists, `validate_clang_format_executable`
returns true whenever the probe returns, whatever the probe returns. -/
theorem validate_clang_format_executable_of_probe (env : environment)
    (config : cli_config) (w : world) (r : result)
    (hne : config.clang_format ≠ [])
    (hex : fs_exists w.fs config.clang_format = true)
    (hp : set_clang_format_version env config (w.print "## Validating clang-format")
      = .ok r) :
    validate_clang_format_executable env config w = .ok ⟨true, r.config, r.world⟩ := by
  unfold validate_clang_format_executable
  simp [path_empty_eq_false _ hne, print_fs, hex, hp]

/-- C2 (defect of the code): the tool `/usr/bin/clang-format` exists and
prints `Ubuntu clang-format version x.0.0`, whose version number cannot be
parsed. The probe `set_clang_format_version` returns false, yet
`validate_clang_format_executable` returns true, the value of the probe being
dropped at line 400, and `validate_config` goes on and returns true. -/
theorem validate_clang_format_executable_ignores_probe :
    set_clang_format_version
        (host_running ⟨"Ubuntu clang-format version x.0.0\n".toList, false, 0, 1⟩)
        sample_config (sample_world.print "## Validating clang-format")
      = .ok ⟨false, sample_config,
          { fs := sample_fs, spawned := 1, trace := ["## Validating clang-format"] }⟩ ∧
    validate_clang_format_executable
        (host_running ⟨"Ubuntu clang-format version x.0.0\n".toList, false, 0, 1⟩)
        sample_config sample_world
      = .ok ⟨true, sample_config,
          { fs := sample_fs, spawned := 1, trace := ["## Validating clang-format"] }⟩ ∧
    (validate_config
        (host_running ⟨"Ubuntu clang-format version x.0.0\n".toList, false, 0, 1⟩)
        sample_config sample_world).map (fun r => r.ok) = .ok true :=
  ⟨rfl, rfl, rfl⟩

/-- A line without the marker at its start, shorter than the computed
position, makes `substr` throw, and the exception leaves the handler. -/
theorem read_cb_inner_throws (config : cli_config) (b : Bool) (l rest : List Char)
    (e : exn) (hl : '\n' ∉ l) (hne : l ≠ [])
    (hoff : sv_find l needle ≠ 0)
    (hsub : substr l ((sv_find l needle + needle.length) % 2 ^ SIZE_WIDTH) l.length
      = .error e) :
    read_cb_inner .success
        { config := config, success := b, buffer := l ++ '\n' :: rest, reading := false }
      = .error e := by
  have hne2 : l.isEmpty = false := by
    cases l with
    | nil => exact absurd rfl hne
    | cons a t => rfl
  simp only [read_cb_inner, getline_line _ _ hl, hne2, hsub]
  simp [hoff]

/-- A line without the marker at its start whose text from the computed
position on begins with digits and has a `.` records the number as the
version, sets `success` and issues no read. -/
theorem read_cb_inner_parsed (config : cli_config) (b : Bool)
    (l rest lv cvv : List Char) (major : Nat)
    (hl : '\n' ∉ l) (hne : l ≠ [])
    (hoff : sv_find l needle ≠ 0)
    (hsub : substr l ((sv_find l needle + needle.length) % 2 ^ SIZE_WIDTH) l.length
      = .ok lv)
    (hdot : find_first_of lv '.' ≠ npos)
    (hcv : substr lv 0 (find_first_of lv '.') = .ok cvv)
    (hfc : from_chars cvv 0 = (.ok, major)) :
    read_cb_inner .success
        { config := config, success := b, buffer := l ++ '\n' :: rest, reading := false }
      = .ok { config := { config with clang_format_version := major }, success := true,
              buffer := rest, reading := false } := by
  have hne2 : l.isEmpty = false := by
    cases l with
    | nil => exact absurd rfl hne
    | cons a t => rfl
  simp only [read_cb_inner, getline_line _ _ hl, hne2, hsub, hcv, hfc]
  simp [hoff, hdot]

/-- C11 (defect of the code): the child prints the single line
`LLVM clang-format v 14.0.0`, which does not contain the marker
`clang-format version `, and exits with code 0. The probe does not read on to
the end of the stream: `find` returns `npos`, line 311 reads it as "marker
present", `npos + 21` wraps to 20, the text from position 20 is `14.0.0`, and
`set_clang_format_version` returns true with 14 stored as the version. -/
theorem set_clang_format_version_without_marker (config : cli_config) (w : world)
    (k : Nat) :
    set_clang_format_version
        (host_running ⟨"LLVM clang-format v 14.0.0\n".toList, false, 0, k⟩) config w
      = .ok ⟨true, { config with clang_format_version := 14 },
          { w with spawned := w.spawned + 1 }⟩ := by
  have hreads : pipe_reads "LLVM clang-format v 14.0.0\n".toList []
      = [.read .success ("LLVM clang-format v 14.0.0".toList ++ '\n' :: []),
         .read .eof []] := by rfl
  have hrun : run (pipe_reads "LLVM clang-format v 14.0.0\n".toList [])
      (probe_init config)
      = .ok { config := { config with clang_format_version := 14 }, success := true,
              buffer := [], reading := false } := by
    rw [hreads, probe_init, run_cons, deliver_read_pending, List.nil_append,
      read_cb_inner_parsed config false "LLVM clang-format v 14.0.0".toList []
        "14.0.0".toList "14".toList 14 (by decide) (by decide) (by decide) (by rfl)
        (by decide) (by rfl) (by rfl)]
    simp only [run_cons, run_nil, deliver_read_idle]
  simp only [set_clang_format_version, host_running, run_schedule_normal_exit, hrun]

/-- C12 (defect of the code): the child prints the line
`clang-format version x.0.0`, which contains the marker and no number, then
the line `Ubuntu clang-format version 14.0.0`, and exits with code 0. The
first line is no hard failure: the marker starts it, `find` returns 0, line
311 jumps to `next_read`, another read is issued, and the second line makes
`set_clang_format_version` return true with 14 stored as the version. -/
theorem set_clang_format_version_reads_on (config : cli_config) (w : world)
    (k : Nat) :
    set_clang_format_version
        (host_running
          ⟨"clang-format version x.0.0\nUbuntu clang-format version 14.0.0\n".toList,
            false, 0, k⟩) config w
      = .ok ⟨true, { config with clang_format_version := 14 },
          { w with spawned := w.spawned + 1 }⟩ := by
  have hreads : pipe_reads
      "clang-format version x.0.0\nUbuntu clang-format version 14.0.0\n".toList []
      = [.read .success (needle ++ "x.0.0".toList ++ ['\n']),
         .read .success ("Ubuntu clang-format version 14.0.0".toList ++ '\n' :: []),
         .read .eof []] := by rfl
  have hrun : run (pipe_reads
      "clang-format version x.0.0\nUbuntu clang-format version 14.0.0\n".toList [])
      (probe_init config)
      = .ok { config := { config with clang_format_version := 14 }, success := true,
              buffer := [], reading := false } := by
    rw [hreads, probe_init, run_cons,
      deliver_banner_head config false "x.0.0".toList (by decide)]
    simp only []
    rw [run_cons, deliver_read_pending, List.nil_append,
      read_cb_inner_parsed config false "Ubuntu clang-format version 14.0.0".toList []
        "14.0.0".toList "14".toList 14 (by decide) (by decide) (by decide) (by rfl)
        (by decide) (by rfl) (by rfl)]
    simp only [run_cons, run_nil, deliver_read_idle]
  simp only [set_clang_format_version, host_running, run_schedule_normal_exit, hrun]

/-- C13 (defect of the code): the child prints the line `Debian build` and
exits with code 0. The line has no marker, `find` returns `npos`, line 311
takes that for a position, `npos + 21` wraps to 20, and
`substr(20, 12)` on a view of 12 characters throws `std::out_of_range`, which
leaves the handler, `proc_ctx.run()` and `set_clang_format_version`; the
configuration is as before the call and one more child process was
launched. -/
theorem set_clang_format_version_throws (config : cli_config) (w : world) (k : Nat) :
    set_clang_format_version
        (host_running ⟨"Debian build\n".toList, false, 0, k⟩) config w
      = .error ⟨.out_of_range, config, ⟨w.fs, w.spawned + 1, w.trace⟩⟩ := by
  have hreads : pipe_reads "Debian build\n".toList []
      = [.read .success ("Debian build".toList ++ '\n' :: []), .read .eof []] := by rfl
  have hrun : run (pipe_reads "Debian build\n".toList []) (probe_init config)
      = .error .out_of_range := by
    rw [hreads, probe_init, run_cons, deliver_read_pending, List.nil_append,
      read_cb_inner_throws config false "Debian build".toList [] .out_of_range
        (by decide) (by decide) (by decide) (by rfl)]
  simp only [set_clang_format_version, host_running, run_schedule_normal_exit, hrun]

/-- When `read_cb_inner` starts with `success` false and returns with
`success` true, it has issued no further read. -/
theorem read_cb_inner_success_stops (ec : error_code) (s s' : probe_state)
    (hs : s.success = false) (hr : s.reading = false)
    (h : read_cb_inner ec s = .ok s') (h' : s'.success = true) :
    s'.reading = false := by
  unfold read_cb_inner at h
  simp only [] at h
  repeat' split at h
  all_goals first
    | (cases h; done)
    | (cases h; simp_all)

/-- On every state the event loop reaches, a recorded success comes with no
outstanding read. -/
theorem deliver_keeps_settled (e : event) (s s' : probe_state)
    (hinv : s.success = true → s.reading = false)
    (h : deliver e s = .ok s') :
    s'.success = true → s'.reading = false := by
  cases e with
  | exit ec code =>
    simp only [deliver, Except.ok.injEq] at h
    subst h
    unfold exit_cb
    split
    · intro hc; cases hc
    · exact hinv
  | read ec data =>
    simp only [deliver] at h
    by_cases hr : s.reading = true
    · simp only [hr, if_true] at h
      have hs : s.success = false := by
        cases hb : s.success with
        | false => rfl
        | true => rw [hinv hb] at hr; cases hr
      exact read_cb_inner_success_stops ec
        { s with buffer := s.buffer ++ data, reading := false } s' hs rfl h
    · simp only [hr] at h
      cases h
      exact hinv

theorem run_keeps_settled (es : List event) (s s' : probe_state)
    (hinv : s.success = true → s.reading = false)
    (h : run es s = .ok s') :
    s'.success = true → s'.reading = false := by
  induction es generalizing s with
  | nil => cases h; exact hinv
  | cons e es ih =>
    rw [run_cons] at h
    cases hd : deliver e s with
    | error x => rw [hd] at h; cases h
    | ok s1 =>
      rw [hd] at h
      exact ih s1 (deliver_keeps_settled e s s1 hinv hd) h

/-- Without an outstanding read, the event loop returns, no read completion
is handled, the configuration stays, and `success` is true at the end exactly
when it was true and every exit completion dispatched is a normal one. -/
theorem run_idle (es : List event) (s : probe_state) (hr : s.reading = false) :
    ∃ s', run es s = .ok s' ∧ s'.config = s.config ∧ s'.reading = false ∧
      (s'.success = true ↔
        s.success = true ∧
          ∀ e ∈ es, ∀ ec code, e = event.exit ec code → ec = false ∧ code = 0) := by
  induction es generalizing s with
  | nil => exact ⟨s, rfl, rfl, hr, by simp⟩
  | cons e es ih =>
    cases e with
    | read ec data =>
      have hd : deliver (.read ec data) s = .ok s := by simp [deliver, hr]
      obtain ⟨s', h1, h2, h3, h4⟩ := ih s hr
      refine ⟨s', by rw [run_cons, hd]; exact h1, h2, h3, ?_⟩
      rw [h4]
      simp
    | exit ec code =>
      have hd : deliver (.exit ec code) s = .ok (exit_cb ec code s) := rfl
      by_cases hn : ec = false ∧ code = 0
      · have he : exit_cb ec code s = s := by
          obtain ⟨rfl, rfl⟩ := hn
          simp [exit_cb]
        obtain ⟨s', h1, h2, h3, h4⟩ := ih s hr
        refine ⟨s', by rw [run_cons, hd, he]; exact h1, h2, h3, ?_⟩
        rw [h4]
        simp [hn]
      · have he : exit_cb ec code s = { s with success := false } := by
          unfold exit_cb
          have : (ec || code != 0) = true := by
            cases ec with
            | true => rfl
            | false =>
              simp only [true_and] at hn
              simp [hn]
          simp [this]
        obtain ⟨s', h1, h2, h3, h4⟩ := ih { s with success := false } hr
        refine ⟨s', by rw [run_cons, hd, he]; exact h1, h2, h3, ?_⟩
        rw [h4]
        constructor
        · intro ⟨hc, _⟩; cases hc
        · intro ⟨_, hall⟩
          exact absurd (hall (.exit ec code) (List.mem_cons_self _ _) ec code rfl) hn

/-- C19: in every event trace of the probe, once `success` is set (a version
is recorded in the configuration), every continuation of the trace returns,
handles no read completion and keeps the configuration, and `success` is true
at the end exactly when every exit completion of the continuation is a normal
one (no error, exit code 0): only an abnormal exit turns the success into a
failure. -/
theorem probe_success_monotonic (config : cli_config) (es1 es2 : List event)
    (s : probe_state)
    (h1 : run es1 (probe_init config) = .ok s) (h2 : s.success = true) :
    ∃ s2, run es2 s = .ok s2 ∧ run (es1 ++ es2) (probe_init config) = .ok s2 ∧
      s2.config = s.config ∧
      (s2.success = true ↔
        ∀ e ∈ es2, ∀ ec code, e = event.exit ec code → ec = false ∧ code = 0) := by
  have hr : s.reading = false :=
    run_keeps_settled es1 (probe_init config) s (fun h => by cases h) h1 h2
  obtain ⟨s2, r1, r2, _, r4⟩ := run_idle es2 s hr
  refine ⟨s2, r1, ?_, r2, ?_⟩
  · rw [run_append, h1]
    exact r1
  · rw [r4]
    simp [h2]

/-- C19, after the version line `Ubuntu clang-format version 14.0.0`, with a
normal exit and the end of the stream as continuation. -/
theorem probe_success_monotonic_witness :
    ∃ s2,
      run [.exit false 0, .read .eof []]
          { config := { sample_config with clang_format_version := 14 }, success := true,
            buffer := [], reading := false } = .ok s2 ∧
      run ([.read .success "Ubuntu clang-format version 14.0.0\n".toList]
          ++ [.exit false 0, .read .eof []]) (probe_init sample_config) = .ok s2 ∧
      s2.config = { sample_config with clang_format_version := 14 } ∧
      (s2.success = true ↔
        ∀ e ∈ [event.exit false 0, event.read .eof []], ∀ ec code,
          e = event.exit ec code → ec = false ∧ code = 0) :=
  probe_success_monotonic sample_config
    [.read .success "Ubuntu clang-format version 14.0.0\n".toList]
    [.exit false 0, .read .eof []]
    { config := { sample_config with clang_format_version := 14 }, success := true,
      buffer := [], reading := false } rfl rfl

/-- C18: `validate_threads` returns true; with `parallel = 0` it leaves
`max(hardware_concurrency, 1)` as `parallel`, with `parallel > 0` it leaves the
configuration as it is, and afterwards `parallel` is at least 1. -/
theorem validate_threads_spec (env : environment) (config : cli_config) (w : world) :
    (validate_threads env config w).ok = true ∧
    (config.parallel = 0 →
      (validate_threads env config w).config
        = { config with parallel := max env.hardware_concurrency 1 }) ∧
    (0 < config.parallel → (validate_threads env config w).config = config) ∧
    1 ≤ (validate_threads env config w).config.parallel := by
  unfold validate_threads
  refine ⟨rfl, ?_, ?_, ?_⟩
  · intro h
    simp [h]
  · intro h
    have : config.parallel ≠ 0 := by omega
    simp [this]
  · by_cases h : config.parallel = 0
    · simp [h]
    · simp only [h, if_false]
      omega

/-- C20: when the recursive walk of `config.input` yields no entry,
`equal_directory_layout(temp, input)` is true for every `temp`, and
`validate_temp_dir` returns true for every existing directory `config.temp`,
whatever its entries are, and changes neither the configuration nor the
filesystem. -/
theorem validate_temp_dir_empty_input (config : cli_config) (w : world)
    (hin : recursive_directory_iterator w.fs config.input = .ok [])
    (hdir : fs_is_directory w.fs config.temp = true) :
    (∀ temp, equal_directory_layout w.fs temp config.input = .ok true) ∧
    validate_temp_dir config w = .ok ⟨true, config, w.print "## Validating temp"⟩ := by
  have hedl : ∀ temp, equal_directory_layout w.fs temp config.input = .ok true := by
    intro temp
    simp [equal_directory_layout, hin, equal_directory_layout_loop]
  refine ⟨hedl, ?_⟩
  have hte : path.empty config.temp = false :=
    path_empty_eq_false _ (ne_nil_of_is_directory w.fs config.temp hdir)
  obtain ⟨d, hd⟩ := status_of_is_directory w.fs config.temp hdir
  have hit : directory_iterator w.fs config.temp
      = .ok (d.names.map (fun n => config.temp ++ [n])) := by
    simp [directory_iterator, hd]
  have hex := exists_of_is_directory w.fs config.temp hdir
  simp [validate_temp_dir, hte, print_fs, hex, hdir, hit, hedl config.temp]

/-- C20, at the empty directory `/empty` as input and `/src`, which holds a
directory and a regular file, as `temp`. -/
theorem validate_temp_dir_empty_input_witness :
    (recursive_directory_iterator sample_world.fs ["/", "empty"] = .ok [] ∧
      fs_is_directory sample_world.fs ["/", "src"] = true ∧
      directory_iterator sample_world.fs ["/", "src"]
        = .ok [["/", "src", "lib"], ["/", "src", "main.cpp"]] ∧
      fs_is_directory sample_world.fs ["/", "src", "main.cpp"] = false) ∧
    validate_temp_dir { sample_config with input := ["/", "empty"], temp := ["/", "src"] }
        sample_world
      = .ok ⟨true, { sample_config with input := ["/", "empty"], temp := ["/", "src"] },
          sample_world.print "## Validating temp"⟩ :=
  ⟨⟨rfl, by decide, rfl, by decide⟩,
    (validate_temp_dir_empty_input
      { sample_config with input := ["/", "empty"], temp := ["/", "src"] } sample_world
      rfl (by decide)).2⟩

/-! ## Lemmas on the tree -/

theorem node_at_cons (d : dir_entries) (c : String) (cs : List String) :
    d.node_at (c :: cs)
      = match d.child c with
        | .dir sub => sub.node_at cs
        | x => if cs.isEmpty then x else .absent := by
  rw [dir_entries.node_at]

theorem node_at_single (d : dir_entries) (c : String) :
    d.node_at [c] = d.child c := by
  rw [node_at_cons]
  cases d.child c <;> simp [dir_entries.node_at]

theorem node_at_append (p q : List String) :
    ∀ d : dir_entries, d.node_at (p ++ q)
      = match d.node_at p with
        | .dir sub => sub.node_at q
        | x => if q.isEmpty then x else .absent := by
  induction p with
  | nil => intro d; simp [dir_entries.node_at]
  | cons c cs ih =>
    intro d
    rw [List.cons_append, node_at_cons, node_at_cons]
    cases hc : d.child c with
    | dir sub => simp only []; exact ih sub
    | absent => cases cs <;> cases q <;> simp
    | file => cases cs <;> cases q <;> simp
    | link t => cases cs <;> cases q <;> simp

theorem valid_name_iff (n : String) :
    valid_name n = true ↔ n ≠ "" ∧ n ≠ "." ∧ n ≠ ".." ∧ n ≠ "/" := by
  simp [valid_name, and_assoc]

theorem valid_names_child (d : dir_entries) (hv : d.valid_names = true) (c : String)
    (hc : d.child c ≠ .absent) :
    valid_name c = true ∧ ∀ sub, d.child c = .dir sub → sub.valid_names = true := by
  induction d with
  | nil => simp [dir_entries.child] at hc
  | file n rest ih =>
    simp only [dir_entries.valid_names, Bool.and_eq_true] at hv
    simp only [dir_entries.child] at hc ⊢
    by_cases hn : n = c
    · subst hn
      simp [hv.1.1]
    · simp only [hn, if_false] at hc ⊢
      exact ih hv.2 hc
  | dir n children rest _ ih =>
    simp only [dir_entries.valid_names, Bool.and_eq_true] at hv
    simp only [dir_entries.child] at hc ⊢
    by_cases hn : n = c
    · subst hn
      simp only [if_true, node.dir.injEq]
      exact ⟨hv.1.1.1, fun sub h => h ▸ hv.1.2⟩
    · simp only [hn, if_false] at hc ⊢
      exact ih hv.2 hc
  | link n t rest ih =>
    simp only [dir_entries.valid_names, Bool.and_eq_true] at hv
    simp only [dir_entries.child] at hc ⊢
    by_cases hn : n = c
    · subst hn
      simp [hv.1.1]
    · simp only [hn, if_false] at hc ⊢
      exact ih hv.2 hc

/-- Every name on the way to an entry of a tree with valid names is valid. -/
theorem valid_names_node_at (L : List String) :
    ∀ d : dir_entries, d.valid_names = true → d.node_at L ≠ .absent →
      ∀ c ∈ L, valid_name c = true := by
  induction L with
  | nil => intro d _ _ c hc; simp at hc
  | cons a as ih =>
    intro d hv hn c hc
    rw [node_at_cons] at hn
    have hca : d.child a ≠ .absent := by
      intro e
      rw [e] at hn
      cases as <;> simp at hn
    obtain ⟨hva, hsub⟩ := valid_names_child d hv a hca
    rcases List.mem_cons.1 hc with rfl | hc
    · exact hva
    · cases hd : d.child a with
      | dir sub =>
        rw [hd] at hn
        exact ih sub (hsub sub hd) hn c hc
      | absent => exact absurd hd hca
      | file =>
        rw [hd] at hn
        cases as with
        | nil => simp at hc
        | cons b bs => simp at hn
      | link t =>
        rw [hd] at hn
        cases as with
        | nil => simp at hc
        | cons b bs => simp at hn

/-! ## Lemmas on the resolution of paths -/

/-- A resolution that follows no link is the same whatever is done at a
link. -/
theorem follow_step_mono (root : dir_entries)
    (again : List String → List String → Option (List String)) (q : List String) :
    ∀ cur r, follow_step root (fun _ _ => none) cur q = some r →
      follow_step root again cur q = some r := by
  induction q with
  | nil => intro cur r h; simpa [follow_step] using h
  | cons c cs ih =>
    intro cur r h
    rw [follow_step] at h ⊢
    by_cases h1 : c = "" ∨ c = "."
    · simp only [h1, if_true] at h ⊢
      exact ih _ _ h
    · simp only [h1, if_false] at h ⊢
      by_cases h2 : c = ".."
      · simp only [h2, if_true] at h ⊢
        exact ih _ _ h
      · simp only [h2, if_false] at h ⊢
        cases hn : root.node_at (cur ++ [c]) with
        | absent => simp [hn] at h
        | file => simpa [hn] using h
        | dir sub =>
          simp only [hn] at h ⊢
          exact ih _ _ h
        | link t =>
          simp only [hn] at h
          split_ifs at h

/-- A path that resolves to a directory can be followed by components that
resolve from there without a link. -/
theorem follow_step_append (root : dir_entries) (q : List String)
    (again : List String → List String → Option (List String))
    (hagain : ∀ cur p c r, again cur p = some c → (∃ d, root.node_at c = .dir d) →
      follow_step root (fun _ _ => none) c q = some r → again cur (p ++ q) = some r)
    (p : List String) :
    ∀ cur c r, follow_step root again cur p = some c → (∃ d, root.node_at c = .dir d) →
      follow_step root (fun _ _ => none) c q = some r →
      follow_step root again cur (p ++ q) = some r := by
  induction p with
  | nil =>
    intro cur c r h _ hq
    simp only [follow_step, Option.some.injEq] at h
    subst h
    exact follow_step_mono root again q _ _ hq
  | cons a as ih =>
    intro cur c r h hd hq
    rw [List.cons_append]
    rw [follow_step] at h ⊢
    by_cases h1 : a = "" ∨ a = "."
    · simp only [h1, if_true] at h ⊢
      exact ih _ _ _ h hd hq
    · simp only [h1, if_false] at h ⊢
      by_cases h2 : a = ".."
      · simp only [h2, if_true] at h ⊢
        exact ih _ _ _ h hd hq
      · simp only [h2, if_false] at h ⊢
        cases hn : root.node_at (cur ++ [a]) with
        | absent => simp [hn] at h
        | file =>
          simp only [hn] at h
          split_ifs at h
          simp only [Option.some.injEq] at h
          subst h
          obtain ⟨d, hd⟩ := hd
          rw [hn] at hd
          cases hd
        | dir sub =>
          simp only [hn] at h ⊢
          exact ih _ _ _ h hd hq
        | link t =>
          simp only [hn] at h ⊢
          split_ifs at h ⊢
          · rw [← List.append_assoc]
            exact hagain _ _ _ _ h hd hq
          · rw [← List.append_assoc]
            exact hagain _ _ _ _ h hd hq

theorem follow_append (root : dir_entries) (q : List String) (n : Nat) :
    ∀ cur p c r, follow n root cur p = some c → (∃ d, root.node_at c = .dir d) →
      follow 0 root c q = some r → follow n root cur (p ++ q) = some r := by
  induction n with
  | zero =>
    intro cur p c r h hd hq
    exact follow_step_append root q _ (fun _ _ _ _ h => by cases h) p cur c r h hd hq
  | succ n ih =>
    intro cur p c r h hd hq
    exact follow_step_append root q _ ih p cur c r h hd hq

/-- Every `..` takes one name of the place away. -/
theorem follow_step_dotdots (root : dir_entries)
    (again : List String → List String → Option (List String))
    (P q : List String) (b : List String) :
    follow_step root again (P ++ b) (List.replicate b.length ".." ++ q)
      = follow_step root again P q := by
  induction b using List.reverseRecOn with
  | nil => simp
  | append_singleton b x ih =>
    rw [List.length_append, List.length_singleton, List.replicate_succ, List.cons_append,
      follow_step]
    simp only [show ¬ ((".." : String) = "" ∨ (".." : String) = ".") by decide, if_false,
      if_true]
    rw [← List.append_assoc, List.dropLast_concat]
    exact ih

/-- From a directory, names that lead through directories to a directory or a
file resolve to the place they spell. -/
theorem follow_step_plain (root : dir_entries)
    (again : List String → List String → Option (List String)) (a : List String) :
    ∀ P, (∀ c ∈ a, valid_name c = true) →
      (root.node_at (P ++ a) = .file ∨ ∃ d, root.node_at (P ++ a) = .dir d) →
      follow_step root again P a = some (P ++ a) := by
  induction a with
  | nil => intro P _ _; simp [follow_step]
  | cons c cs ih =>
    intro P hv hn
    have hc := (valid_name_iff c).1 (hv c (List.mem_cons_self _ _))
    rw [follow_step]
    simp only [show ¬ (c = "" ∨ c = ".") from fun h => h.elim hc.1 hc.2.1, if_false,
      hc.2.2.1]
    have hsplit : P ++ c :: cs = (P ++ [c]) ++ cs := by simp
    rw [hsplit, node_at_append] at hn
    cases hpc : root.node_at (P ++ [c]) with
    | absent =>
      rw [hpc] at hn
      cases cs <;> simp at hn
    | file =>
      rw [hpc] at hn
      cases cs with
      | nil => simp
      | cons b bs => simp at hn
    | link t =>
      rw [hpc] at hn
      cases cs <;> simp at hn
    | dir sub =>
      simp only []
      rw [hsplit]
      apply ih (P ++ [c]) (fun x hx => hv x (List.mem_cons_of_mem _ hx))
      rw [node_at_append, hpc]
      rw [hpc] at hn
      exact hn

theorem fs_exists_resolve (fs : filesystem) (p : path) (h : fs_exists fs p = true) :
    ∃ L, fs.resolve p = some L ∧
      (fs.root.node_at L = .file ∨ ∃ d, fs.root.node_at L = .dir d) := by
  unfold fs_exists fs_status at h
  cases hr : fs.resolve p with
  | none => simp [hr] at h
  | some L =>
    refine ⟨L, rfl, ?_⟩
    cases hn : fs.root.node_at L with
    | absent => simp [hr, hn] at h
    | link t => simp [hr, hn] at h
    | file => exact Or.inl rfl
    | dir d => exact Or.inr ⟨d, rfl⟩

theorem fs_status_directory_resolve (fs : filesystem) (p : path) (d : dir_entries)
    (h : fs_status fs p = .directory d) :
    ∃ L, fs.resolve p = some L ∧ fs.root.node_at L = .dir d := by
  unfold fs_status at h
  cases hr : fs.resolve p with
  | none => simp [hr] at h
  | some L =>
    refine ⟨L, rfl, ?_⟩
    cases hn : fs.root.node_at L with
    | absent => simp [hr, hn] at h
    | link t => simp [hr, hn] at h
    | file => simp [hr, hn] at h
    | dir d2 =>
      simp only [hr, hn, file_status.directory.injEq] at h
      rw [h]

theorem fs_exists_of_resolve (fs : filesystem) (p : path) (L : List String)
    (hr : fs.resolve p = some L)
    (hn : fs.root.node_at L = .file ∨ ∃ d, fs.root.node_at L = .dir d) :
    fs_exists fs p = true := by
  unfold fs_exists fs_status
  rcases hn with hn | ⟨d, hn⟩ <;> simp [hr, hn]

/-- A path that names a directory, followed by components that resolve from
there without a link, names what these components reach. -/
theorem resolve_append (fs : filesystem) (A q : path) (LA r : List String)
    (hA : fs.resolve A = some LA) (hd : ∃ d, fs.root.node_at LA = .dir d)
    (hq : follow 0 fs.root LA q = some r) : fs.resolve (A ++ q) = some r := by
  cases A with
  | nil => simp [filesystem.resolve] at hA
  | cons c cs =>
    simp only [filesystem.resolve, List.cons_append] at hA ⊢
    by_cases hc : (c == "/") = true
    · simp only [hc, if_true] at hA ⊢
      exact follow_append fs.root q _ _ _ _ _ hA hd hq
    · simp only [hc] at hA ⊢
      exact follow_append fs.root q _ _ (c :: cs) _ _ hA hd hq

theorem mismatch_spec (p : path) :
    ∀ q : path, ∃ P, p = P ++ (mismatch p q).1 ∧ q = P ++ (mismatch p q).2 := by
  induction p with
  | nil => intro q; exact ⟨[], by simp [mismatch]⟩
  | cons a p ih =>
    intro q
    cases q with
    | nil => exact ⟨[], by simp [mismatch]⟩
    | cons b q =>
      by_cases hab : a = b
      · subst hab
        obtain ⟨P, h1, h2⟩ := ih q
        refine ⟨a :: P, ?_, ?_⟩
        · simp only [mismatch, if_true, List.cons_append]
          rw [← h1]
        · simp only [mismatch, if_true, List.cons_append]
          rw [← h2]
      · exact ⟨[], by simp [mismatch, hab]⟩

theorem dotdot_count_valid (b : path) (h : ∀ c ∈ b, valid_name c = true) :
    dotdot_count b = b.length := by
  induction b with
  | nil => rfl
  | cons c cs ih =>
    have hc := (valid_name_iff c).1 (h c (List.mem_cons_self _ _))
    rw [dotdot_count, ih (fun x hx => h x (List.mem_cons_of_mem _ hx))]
    simp only [hc.2.2.1, if_false, show ¬ (c = "" ∨ c = ".") from
      fun h => h.elim hc.1 hc.2.1, List.length_cons]
    push_cast
    ring

theorem is_absolute_of_no_root (rel : path) (h : ∀ c ∈ rel, c ≠ "/") :
    path.is_absolute rel = false := by
  cases rel with
  | nil => rfl
  | cons c cs =>
    simp only [path.is_absolute, beq_eq_false_iff_ne, ne_eq]
    exact h c (List.mem_cons_self _ _)

/-- The path `base / relative(e, base)` exists when `e` exists and `base` is a
directory: it names what `e` names. -/
theorem fs_relative_exists (fs : filesystem) (e A : path) (d : dir_entries)
    (hv : fs.root.valid_names = true) (he : fs_exists fs e = true)
    (hA : fs_status fs A = .directory d) :
    fs_exists fs (path.append A (fs_relative fs e A)) = true := by
  obtain ⟨Le, hre, hne⟩ := fs_exists_resolve fs e he
  obtain ⟨LA, hra, hna⟩ := fs_status_directory_resolve fs A d hA
  have hAex : fs_exists fs A = true := by simp [fs_exists, hA]
  have wce : weakly_canonical fs e = "/" :: Le := by
    simp [weakly_canonical, he, fs_canonical, hre]
  have wcA : weakly_canonical fs A = "/" :: LA := by
    simp [weakly_canonical, hAex, fs_canonical, hra]
  have hvLe : ∀ c ∈ Le, valid_name c = true := by
    apply valid_names_node_at Le fs.root hv
    rcases hne with h | ⟨x, h⟩ <;> simp [h]
  have hvLA : ∀ c ∈ LA, valid_name c = true := by
    apply valid_names_node_at LA fs.root hv
    simp [hna]
  obtain ⟨P, hP1, hP2⟩ := mismatch_spec Le LA
  have hva : ∀ c ∈ (mismatch Le LA).1, valid_name c = true := by
    intro c hc
    apply hvLe
    rw [hP1]
    exact List.mem_append_right _ hc
  have hvb : ∀ c ∈ (mismatch Le LA).2, valid_name c = true := by
    intro c hc
    apply hvLA
    rw [hP2]
    exact List.mem_append_right _ hc
  have hcount := dotdot_count_valid _ hvb
  -- the two shapes of the relative path
  have hdot : fs_exists fs (path.append A ["."]) = true := by
    have happ : path.append A ["."] = A ++ ["."] := by
      simp [path.append, path.is_absolute]
    rw [happ]
    apply fs_exists_of_resolve fs _ LA _ (Or.inr ⟨d, hna⟩)
    apply resolve_append fs A ["."] LA LA hra ⟨d, hna⟩
    simp [follow, follow_step]
  have hclimb : fs_exists fs (path.append A
      (List.replicate (mismatch Le LA).2.length ".." ++ (mismatch Le LA).1)) = true := by
    have hrel : path.is_absolute
        (List.replicate (mismatch Le LA).2.length ".." ++ (mismatch Le LA).1) = false := by
      apply is_absolute_of_no_root
      intro c hc
      rcases List.mem_append.1 hc with h | h
      · rw [(List.mem_replicate.1 h).2]
        decide
      · exact ((valid_name_iff c).1 (hva c h)).2.2.2
    have happ : path.append A
        (List.replicate (mismatch Le LA).2.length ".." ++ (mismatch Le LA).1)
        = A ++ (List.replicate (mismatch Le LA).2.length ".." ++ (mismatch Le LA).1) := by
      simp [path.append, hrel]
    rw [happ]
    apply fs_exists_of_resolve fs _ Le _ hne
    apply resolve_append fs A _ LA Le hra ⟨d, hna⟩
    have hfollow : follow 0 fs.root LA
        (List.replicate (mismatch Le LA).2.length ".." ++ (mismatch Le LA).1)
        = follow_step fs.root (fun _ _ => none) P (mismatch Le LA).1 := by
      rw [follow]
      nth_rewrite 1 [hP2]
      exact follow_step_dotdots fs.root _ P _ _
    rw [hfollow, follow_step_plain fs.root _ _ P hva (by rw [← hP1]; exact hne), ← hP1]
  unfold fs_relative
  rw [wce, wcA]
  have hm : mismatch ("/" :: Le) ("/" :: LA) = mismatch Le LA := by simp [mismatch]
  simp only [lexically_relative, hm, hcount, path.is_absolute, bne_self_eq_false,
    Bool.false_eq_true, if_false]
  split_ifs with h1 h2 h3
  · exact hdot
  · exact absurd h2 (by omega)
  · exact hdot
  · simpa using hclimb

/-! ## Reflexivity of the layout matcher -/

/-- C16, as amended: when every entry that the recursive walk of a directory
`A` yields exists (no entry is a symbolic link that points to nothing or into
a loop of links), `equal_directory_layout(A, A)` returns true. The tree has
valid names: no name is empty, a dot name or `/`, and the names of a
directory differ. -/
theorem equal_directory_layout_refl (fs : filesystem) (A : path) (entries : List path)
    (hv : fs.root.valid_names = true)
    (hit : recursive_directory_iterator fs A = .ok entries)
    (hall : ∀ e ∈ entries, fs_exists fs e = true) :
    equal_directory_layout fs A A = .ok true := by
  have hdir : ∃ d, fs_status fs A = .directory d := by
    unfold recursive_directory_iterator at hit
    cases hs : fs_status fs A with
    | directory d => exact ⟨d, rfl⟩
    | not_found => simp [hs] at hit
    | regular => simp [hs] at hit
  obtain ⟨d, hd⟩ := hdir
  simp only [equal_directory_layout, hit, Except.ok.injEq]
  rw [equal_directory_layout_loop_true]
  intro e he
  exact fs_relative_exists fs e A d hv (hall e he) hd

/-- C16, as amended, at the directory that the link `/s` of the tree with
links names: its entries are a file, a link to a file and a link to a
directory. -/
theorem equal_directory_layout_refl_witness :
    (linked_fs.root.valid_names = true ∧
      recursive_directory_iterator linked_fs ["/", "s"]
        = .ok [["/", "s", "x"], ["/", "s", "l"], ["/", "s", "up"]] ∧
      ∀ e ∈ [["/", "s", "x"], ["/", "s", "l"], ["/", "s", "up"]],
        fs_exists linked_fs e = true) ∧
    equal_directory_layout linked_fs ["/", "s"] ["/", "s"] = .ok true :=
  ⟨⟨by decide, rfl, by decide⟩,
    equal_directory_layout_refl linked_fs ["/", "s"] _ (by decide) rfl (by decide)⟩

/-- C16, counterexample: the directory `/c` holds the symbolic link `gone`,
which points to nothing. The walk of `/c` yields `/c/gone`, `fs::exists`
follows the link, and `equal_directory_layout(/c, /c)` returns false. -/
theorem equal_directory_layout_dangling_link :
    fs_is_directory linked_fs ["/", "c"] = true ∧
    recursive_directory_iterator linked_fs ["/", "c"] = .ok [["/", "c", "gone"]] ∧
    fs_exists linked_fs ["/", "c", "gone"] = false ∧
    equal_directory_layout linked_fs ["/", "c"] ["/", "c"] = .ok false :=
  ⟨by decide, rfl, by decide, rfl⟩

/-! ## Lemmas on the creation of directories -/

theorem kept_as_refl (x : node) : x.kept_as x = true := by
  cases x <;> simp [node.kept_as]

theorem kept_as_trans (x y z : node) (h1 : x.kept_as y = true) (h2 : y.kept_as z = true) :
    x.kept_as z = true := by
  cases x <;> cases y <;> cases z <;> simp_all [node.kept_as]

theorem kept_as_file (y : node) (h : node.kept_as .file y = true) : y = .file := by
  cases y <;> simp_all [node.kept_as]

theorem kept_as_link (t : path) (y : node) (h : node.kept_as (.link t) y = true) :
    y = .link t := by
  cases y <;> simp_all [node.kept_as]

theorem kept_as_dir (d : dir_entries) (y : node) (h : node.kept_as (.dir d) y = true) :
    ∃ d2, y = .dir d2 := by
  cases y <;> simp_all [node.kept_as]

theorem kept_as_absent (x : node) (h : x.kept_as .absent = true) : x = .absent := by
  cases x <;> simp_all [node.kept_as]

theorem add_dir_at_nil (d : dir_entries) (name : String) :
    d.add_dir_at [] name = d.add_dir name := by
  cases d <;> rfl

theorem child_add_dir (d : dir_entries) (name c : String) :
    (d.add_dir name).child c
      = if d.child c = .absent then (if name = c then .dir .nil else .absent)
        else d.child c := by
  induction d with
  | nil => simp [dir_entries.add_dir, dir_entries.child]
  | file n rest ih =>
    simp only [dir_entries.add_dir, dir_entries.child]
    by_cases hn : n = c
    · simp [hn]
    · simp only [hn, if_false]
      exact ih
  | dir n ch rest _ ih =>
    simp only [dir_entries.add_dir, dir_entries.child]
    by_cases hn : n = c
    · simp [hn]
    · simp only [hn, if_false]
      exact ih
  | link n t rest ih =>
    simp only [dir_entries.add_dir, dir_entries.child]
    by_cases hn : n = c
    · simp [hn]
    · simp only [hn, if_false]
      exact ih

theorem child_add_dir_at (d : dir_entries) (p : String) (ps : List String)
    (name c : String) :
    (d.add_dir_at (p :: ps) name).child c
      = if p = c then
          (match d.child p with
            | .dir sub => .dir (sub.add_dir_at ps name)
            | x => x)
        else d.child c := by
  induction d with
  | nil =>
    simp only [dir_entries.add_dir_at, dir_entries.child]
    split_ifs <;> rfl
  | file n rest ih =>
    simp only [dir_entries.add_dir_at]
    by_cases hnp : n = p
    · subst hnp
      simp only [if_true, dir_entries.child]
      split_ifs <;> rfl
    · simp only [hnp, if_false, dir_entries.child]
      by_cases hnc : n = c
      · subst hnc
        simp [Ne.symm hnp]
      · simp only [hnc, if_false]
        exact ih
  | dir n ch rest _ ih =>
    simp only [dir_entries.add_dir_at]
    by_cases hnp : n = p
    · subst hnp
      simp only [if_true, dir_entries.child]
      split_ifs <;> rfl
    · simp only [hnp, if_false, dir_entries.child]
      by_cases hnc : n = c
      · subst hnc
        simp [Ne.symm hnp]
      · simp only [hnc, if_false]
        exact ih
  | link n t rest ih =>
    simp only [dir_entries.add_dir_at]
    by_cases hnp : n = p
    · subst hnp
      simp only [if_true, dir_entries.child]
      split_ifs <;> rfl
    · simp only [hnp, if_false, dir_entries.child]
      by_cases hnc : n = c
      · subst hnc
        simp [Ne.symm hnp]
      · simp only [hnc, if_false]
        exact ih

theorem child_of_node_at_dir (d : dir_entries) (p : String) (ps : List String)
    (dd : dir_entries) (h : d.node_at (p :: ps) = .dir dd) :
    ∃ sub, d.child p = .dir sub ∧ sub.node_at ps = .dir dd := by
  rw [node_at_cons] at h
  cases hc : d.child p with
  | dir sub => rw [hc] at h; exact ⟨sub, rfl, h⟩
  | absent => rw [hc] at h; cases ps <;> simp at h
  | file => rw [hc] at h; cases ps <;> simp at h
  | link t => rw [hc] at h; cases ps <;> simp at h

/-- The tree after a directory `name` was added in the directory at `place`:
the new directory is there and empty; what was at a place is still there; and
a directory that the new one does not lie in or below has the entries it
had. -/
theorem node_at_add_dir_at (place : List String) :
    ∀ (root : dir_entries) (name : String) (dd : dir_entries),
      root.node_at place = .dir dd → root.node_at (place ++ [name]) = .absent →
      (root.add_dir_at place name).node_at (place ++ [name]) = .dir .nil ∧
      ∀ L, (root.node_at L).kept_as ((root.add_dir_at place name).node_at L) = true ∧
        (∀ d, root.node_at L = .dir d → ¬ L <+: place ++ [name] →
          (root.add_dir_at place name).node_at L = .dir d) := by
  induction place with
  | nil =>
    intro root name dd _ habs
    rw [List.nil_append, node_at_single] at habs
    rw [add_dir_at_nil, List.nil_append]
    refine ⟨?_, ?_⟩
    · rw [node_at_single, child_add_dir]
      simp [habs]
    · intro L
      cases L with
      | nil =>
        refine ⟨by simp [dir_entries.node_at, node.kept_as], ?_⟩
        intro d _ hn
        exact absurd List.nil_prefix hn
      | cons c cs =>
        rw [node_at_cons, node_at_cons, child_add_dir]
        by_cases hc : root.child c = .absent
        · simp only [hc, if_true]
          refine ⟨?_, ?_⟩
          · cases cs <;> simp [node.kept_as]
          · intro d hd
            cases cs <;> simp at hd
        · simp only [hc, if_false]
          exact ⟨kept_as_refl _, fun d hd _ => hd⟩
  | cons p ps ih =>
    intro root name dd hdir habs
    obtain ⟨sub, hsub, hps⟩ := child_of_node_at_dir root p ps dd hdir
    rw [List.cons_append, node_at_cons, hsub] at habs
    simp only [] at habs
    obtain ⟨ih1, ih2⟩ := ih sub name dd hps habs
    refine ⟨?_, ?_⟩
    · rw [List.cons_append, node_at_cons, child_add_dir_at]
      simp only [if_true, hsub]
      exact ih1
    · intro L
      cases L with
      | nil =>
        refine ⟨by simp [dir_entries.node_at, node.kept_as], ?_⟩
        intro d _ hn
        exact absurd List.nil_prefix hn
      | cons c cs =>
        rw [node_at_cons, node_at_cons, child_add_dir_at]
        by_cases hpc : p = c
        · subst hpc
          simp only [if_true, hsub]
          refine ⟨(ih2 cs).1, ?_⟩
          intro d hd hn
          apply (ih2 cs).2 d hd
          intro hpre
          apply hn
          rw [List.cons_append]
          exact (List.cons_prefix_cons).2 ⟨rfl, hpre⟩
        · simp only [hpc, if_false]
          exact ⟨kept_as_refl _, fun d hd _ => hd⟩

/-- What stays of a tree when directories are added, one step after the
other. -/
theorem tree_kept_trans (a b c : dir_entries)
    (hab : (∀ L, (a.node_at L).kept_as (b.node_at L) = true) ∧
      ∀ ci d, a.node_at ci = .dir d →
        (∀ L, ci <+: L → a.node_at L = .absent → b.node_at L = .absent) →
        b.node_at ci = .dir d)
    (hbc : (∀ L, (b.node_at L).kept_as (c.node_at L) = true) ∧
      ∀ ci d, b.node_at ci = .dir d →
        (∀ L, ci <+: L → b.node_at L = .absent → c.node_at L = .absent) →
        c.node_at ci = .dir d) :
    (∀ L, (a.node_at L).kept_as (c.node_at L) = true) ∧
      ∀ ci d, a.node_at ci = .dir d →
        (∀ L, ci <+: L → a.node_at L = .absent → c.node_at L = .absent) →
        c.node_at ci = .dir d := by
  refine ⟨fun L => kept_as_trans _ _ _ (hab.1 L) (hbc.1 L), ?_⟩
  intro ci d hd hpro
  have hb : b.node_at ci = .dir d := by
    apply hab.2 ci d hd
    intro L hpre habs
    have hc := hpro L hpre habs
    have := hbc.1 L
    rw [hc] at this
    exact kept_as_absent _ this
  apply hbc.2 ci d hb
  intro L hpre hbabs
  apply hpro L hpre
  have := hab.1 L
  rw [hbabs] at this
  exact kept_as_absent _ this

theorem tree_kept_add_dir_at (root : dir_entries) (place : List String) (name : String)
    (dd : dir_entries) (hdir : root.node_at place = .dir dd)
    (habs : root.node_at (place ++ [name]) = .absent) :
    (∀ L, (root.node_at L).kept_as ((root.add_dir_at place name).node_at L) = true) ∧
      ∀ ci d, root.node_at ci = .dir d →
        (∀ L, ci <+: L → root.node_at L = .absent →
          (root.add_dir_at place name).node_at L = .absent) →
        (root.add_dir_at place name).node_at ci = .dir d := by
  obtain ⟨hnew, hall⟩ := node_at_add_dir_at place root name dd hdir habs
  refine ⟨fun L => (hall L).1, ?_⟩
  intro ci d hd hpro
  apply (hall ci).2 d hd
  intro hpre
  have := hpro _ hpre habs
  rw [hnew] at this
  cases this

/-- A call of `fs::create_directory` leaves the filesystem as it is, or adds
one directory where there was nothing, in a directory. -/
theorem fs_create_directory_cases (fs : filesystem) (p : path) :
    (fs_create_directory fs p).1 = fs ∨
    ∃ place name dd, fs.root.node_at place = .dir dd ∧
      fs.root.node_at (place ++ [name]) = .absent ∧
      (fs_create_directory fs p).1
        = ⟨fs.root.add_dir_at place name, fs.cwd, fs.read_only⟩ := by
  unfold fs_create_directory
  simp only []
  by_cases h1 : path.filename p = "" ∨ path.filename p = "." ∨ path.filename p = ".."
  · rw [if_pos h1]
    exact Or.inl rfl
  · rw [if_neg h1]
    generalize (if p.dropLast = [] then ["."] else p.dropLast) = parent
    cases hres : fs.resolve parent with
    | none => exact Or.inl rfl
    | some place =>
      simp only []
      cases hdd : fs.root.node_at place with
      | absent => exact Or.inl rfl
      | file => exact Or.inl rfl
      | link t => exact Or.inl rfl
      | dir dd =>
        simp only []
        cases habs : fs.root.node_at (place ++ [path.filename p]) with
        | file => exact Or.inl rfl
        | link t => exact Or.inl rfl
        | dir x => exact Or.inl rfl
        | absent =>
          simp only []
          by_cases hro : fs.read_only.contains place = true
          · rw [if_pos hro]
            exact Or.inl rfl
          · rw [if_neg hro]
            exact Or.inr ⟨place, path.filename p, dd, hdd, habs, rfl⟩

/-- What `fs::create_directory` leaves: the current directory, and of the tree
what was there. -/
theorem fs_create_directory_kept (fs : filesystem) (p : path) :
    (fs_create_directory fs p).1.cwd = fs.cwd ∧
    (∀ L, (fs.root.node_at L).kept_as ((fs_create_directory fs p).1.root.node_at L) = true) ∧
      ∀ ci d, fs.root.node_at ci = .dir d →
        (∀ L, ci <+: L → fs.root.node_at L = .absent →
          (fs_create_directory fs p).1.root.node_at L = .absent) →
        (fs_create_directory fs p).1.root.node_at ci = .dir d := by
  rcases fs_create_directory_cases fs p with h | ⟨place, name, dd, hdd, habs, h⟩
  · rw [h]
    exact ⟨rfl, fun L => kept_as_refl _, fun _ _ hd _ => hd⟩
  · rw [h]
    exact ⟨rfl, tree_kept_add_dir_at fs.root place name dd hdd habs⟩

theorem make_all_kept (paths : List path) :
    ∀ fs : filesystem, (make_all fs paths).1.cwd = fs.cwd ∧
    (∀ L, (fs.root.node_at L).kept_as ((make_all fs paths).1.root.node_at L) = true) ∧
      ∀ ci d, fs.root.node_at ci = .dir d →
        (∀ L, ci <+: L → fs.root.node_at L = .absent →
          (make_all fs paths).1.root.node_at L = .absent) →
        (make_all fs paths).1.root.node_at ci = .dir d := by
  induction paths with
  | nil =>
    intro fs
    exact ⟨rfl, fun L => kept_as_refl _, fun _ _ hd _ => hd⟩
  | cons top rest ih =>
    intro fs
    obtain ⟨c1, k1⟩ := fs_create_directory_kept fs top
    cases hm : (fs_create_directory fs top).2 with
    | some e =>
      simp only [make_all, hm]
      exact ⟨c1, k1⟩
    | none =>
      simp only [make_all, hm]
      obtain ⟨c2, k2⟩ := ih (fs_create_directory fs top).1
      exact ⟨c2.trans c1, tree_kept_trans _ _ _ k1 k2⟩

/-- What `fs::create_directories` leaves, whether it returns or throws: the
current directory, and of the tree what was there; a directory in or below
which nothing new appears has the entries it had. -/
theorem fs_create_directories_kept (fs : filesystem) (p : path) :
    (fs_create_directories fs p).1.cwd = fs.cwd ∧
    (∀ L, (fs.root.node_at L).kept_as
      ((fs_create_directories fs p).1.root.node_at L) = true) ∧
      ∀ ci d, fs.root.node_at ci = .dir d →
        (∀ L, ci <+: L → fs.root.node_at L = .absent →
          (fs_create_directories fs p).1.root.node_at L = .absent) →
        (fs_create_directories fs p).1.root.node_at ci = .dir d := by
  have hsame : (fs_create_directories fs p).1 = fs →
      (fs_create_directories fs p).1.cwd = fs.cwd ∧
      (∀ L, (fs.root.node_at L).kept_as
        ((fs_create_directories fs p).1.root.node_at L) = true) ∧
      ∀ ci d, fs.root.node_at ci = .dir d →
        (∀ L, ci <+: L → fs.root.node_at L = .absent →
          (fs_create_directories fs p).1.root.node_at L = .absent) →
        (fs_create_directories fs p).1.root.node_at ci = .dir d := by
    intro h
    rw [h]
    exact ⟨rfl, fun L => kept_as_refl _, fun _ _ hd _ => hd⟩
  by_cases h1 : p = []
  · exact hsame (by rw [fs_create_directories, if_pos h1])
  · cases hs : fs_status fs p with
    | directory x => exact hsame (by rw [fs_create_directories, if_neg h1, hs])
    | regular => exact hsame (by rw [fs_create_directories, if_neg h1, hs])
    | not_found =>
      cases hm : missing_above fs
          (if p.getLast? = some "" then p.dropLast else p).length
          (if p.getLast? = some "" then p.dropLast else p) [] with
      | error e =>
        exact hsame (by rw [fs_create_directories, if_neg h1, hs]; simp only [hm])
      | ok missing =>
        have he : fs_create_directories fs p = make_all fs missing := by
          rw [fs_create_directories, if_neg h1, hs]
          simp only [hm]
        rw [he]
        exact make_all_kept missing fs

/-! ## Lemmas on the resolution of paths in a tree that grew -/

theorem follow_step_kept (old new : dir_entries)
    (hk : ∀ L, (old.node_at L).kept_as (new.node_at L) = true)
    (again again2 : List String → List String → Option (List String))
    (hag : ∀ cur p r, again cur p = some r → again2 cur p = some r) (p : List String) :
    ∀ cur r, follow_step old again cur p = some r →
      follow_step new again2 cur p = some r := by
  induction p with
  | nil => intro cur r h; simpa [follow_step] using h
  | cons c cs ih =>
    intro cur r h
    rw [follow_step] at h ⊢
    by_cases h1 : c = "" ∨ c = "."
    · simp only [h1, if_true] at h ⊢
      exact ih _ _ h
    · simp only [h1, if_false] at h ⊢
      by_cases h2 : c = ".."
      · simp only [h2, if_true] at h ⊢
        exact ih _ _ h
      · simp only [h2, if_false] at h ⊢
        have hkc := hk (cur ++ [c])
        cases hn : old.node_at (cur ++ [c]) with
        | absent => simp [hn] at h
        | file =>
          rw [hn] at hkc
          rw [kept_as_file _ hkc]
          simpa [hn] using h
        | dir sub =>
          rw [hn] at hkc
          obtain ⟨d2, hd2⟩ := kept_as_dir _ _ hkc
          rw [hd2]
          simp only [hn] at h ⊢
          exact ih _ _ h
        | link t =>
          rw [hn] at hkc
          rw [kept_as_link _ _ hkc]
          simp only [hn] at h ⊢
          split_ifs at h ⊢
          · exact hag _ _ _ h
          · exact hag _ _ _ h

theorem follow_kept (old new : dir_entries)
    (hk : ∀ L, (old.node_at L).kept_as (new.node_at L) = true) (n : Nat) :
    ∀ cur p r, follow n old cur p = some r → follow n new cur p = some r := by
  induction n with
  | zero =>
    intro cur p r h
    exact follow_step_kept old new hk _ _ (fun _ _ _ h => h) p cur r h
  | succ n ih =>
    intro cur p r h
    exact follow_step_kept old new hk _ _ ih p cur r h

theorem resolve_kept (fs fs2 : filesystem) (hc : fs2.cwd = fs.cwd)
    (hk : ∀ L, (fs.root.node_at L).kept_as (fs2.root.node_at L) = true)
    (p : path) (L : List String) (h : fs.resolve p = some L) :
    fs2.resolve p = some L := by
  cases p with
  | nil => simp [filesystem.resolve] at h
  | cons c cs =>
    simp only [filesystem.resolve] at h ⊢
    rw [hc]
    split_ifs at h ⊢
    · exact follow_kept _ _ hk _ _ _ _ h
    · exact follow_kept _ _ hk _ _ _ _ h

/-- In a tree that grew, a path that named a file names a file, and a path
that named a directory names a directory. -/
theorem fs_status_kept (fs fs2 : filesystem) (hc : fs2.cwd = fs.cwd)
    (hk : ∀ L, (fs.root.node_at L).kept_as (fs2.root.node_at L) = true) (p : path) :
    (fs_status fs p = .regular → fs_status fs2 p = .regular) ∧
    (∀ x, fs_status fs p = .directory x → ∃ y, fs_status fs2 p = .directory y) := by
  unfold fs_status
  cases hr : fs.resolve p with
  | none => simp
  | some L =>
    rw [resolve_kept fs fs2 hc hk p L hr]
    simp only []
    have hkL := hk L
    cases hn : fs.root.node_at L with
    | absent => simp
    | link t => simp
    | file =>
      rw [hn] at hkL
      rw [kept_as_file _ hkL]
      simp
    | dir d =>
      rw [hn] at hkL
      obtain ⟨d2, hd2⟩ := kept_as_dir _ _ hkL
      rw [hd2]
      simp

/-- In a tree that grew, the recursive walk of a directory in or below which
nothing new appeared yields what it yielded. -/
theorem recursive_directory_iterator_kept (fs fs2 : filesystem) (hc : fs2.cwd = fs.cwd)
    (hk : (∀ L, (fs.root.node_at L).kept_as (fs2.root.node_at L) = true) ∧
      ∀ ci d, fs.root.node_at ci = .dir d →
        (∀ L, ci <+: L → fs.root.node_at L = .absent → fs2.root.node_at L = .absent) →
        fs2.root.node_at ci = .dir d)
    (input : path) (ci : List String) (entries : List path)
    (hres : fs.resolve input = some ci)
    (hit : recursive_directory_iterator fs input = .ok entries)
    (hnew : ∀ L, ci <+: L → fs.root.node_at L = .absent → fs2.root.node_at L = .absent) :
    recursive_directory_iterator fs2 input = .ok entries := by
  unfold recursive_directory_iterator fs_status at hit ⊢
  rw [resolve_kept fs fs2 hc hk.1 input ci hres]
  rw [hres] at hit
  simp only [] at hit ⊢
  cases hn : fs.root.node_at ci with
  | absent => simp [hn] at hit
  | link t => simp [hn] at hit
  | file => simp [hn] at hit
  | dir d =>
    rw [hk.2 ci d hn hnew]
    simpa [hn] using hit

/-! ## Creation of the temporary directory -/

/-- C14, as amended: when the path `t` that `validate_temp_dir` validates
(`config.temp`, or the default below the current directory) does not exist
and `fs::create_directories(t)` returns and leaves `t` an empty directory,
`validate_temp_dir` returns true and leaves the filesystem as
`fs::create_directories` left it, and a second `validate_temp_dir` on the
resulting configuration and filesystem returns true and changes neither. -/
theorem validate_temp_dir_creates (config : cli_config) (w : world) (t : path)
    (fs2 : filesystem)
    (ht : t = if path.empty config.temp = true
      then path.append (current_path w.fs) ["clang-unformat-temp"] else config.temp)
    (hex : fs_exists w.fs t = false)
    (hmk : fs_create_directories w.fs t = (fs2, none))
    (hdir : fs_is_directory fs2 t = true)
    (hit : directory_iterator fs2 t = .ok []) :
    validate_temp_dir config w
      = .ok ⟨true, { config with temp := t },
          { fs := fs2, spawned := w.spawned,
            trace := w.trace ++ ["## Validating temp"] }⟩ ∧
    ∀ w2 : world, w2.fs = fs2 →
      validate_temp_dir { config with temp := t } w2
        = .ok ⟨true, { config with temp := t }, w2.print "## Validating temp"⟩ := by
  refine ⟨?_, ?_⟩
  · cases he : path.empty config.temp with
    | true =>
      simp only [he, if_true] at ht
      subst ht
      simp [validate_temp_dir, he, print_fs, hex, hmk, world.print]
    | false =>
      simp only [he, Bool.false_eq_true, if_false] at ht
      subst ht
      simp [validate_temp_dir, he, print_fs, hex, hmk, world.print]
  · intro w2 hw2
    subst hw2
    have hte : path.empty t = false :=
      path_empty_eq_false t (ne_nil_of_is_directory w2.fs t hdir)
    have hex2 : fs_exists w2.fs t = true := exists_of_is_directory w2.fs t hdir
    simp [validate_temp_dir, hte, print_fs, hex2, hdir, hit]

/-- C14, as amended, at the temporary directory `/tmp/clang-unformat-temp` of
the sample configuration, which does not exist in the sample tree. -/
theorem validate_temp_dir_creates_witness :
    (fs_exists sample_world.fs ["/", "tmp", "clang-unformat-temp"] = false ∧
      (fs_create_directories sample_world.fs ["/", "tmp", "clang-unformat-temp"]).2
        = none ∧
      directory_iterator
        (fs_create_directories sample_world.fs ["/", "tmp", "clang-unformat-temp"]).1
        ["/", "tmp", "clang-unformat-temp"] = .ok []) ∧
    validate_temp_dir sample_config sample_world
      = .ok ⟨true, sample_config,
          { fs := (fs_create_directories sample_world.fs
              ["/", "tmp", "clang-unformat-temp"]).1,
            spawned := 0, trace := ["## Validating temp"] }⟩ ∧
    ∀ w2 : world,
      w2.fs = (fs_create_directories sample_world.fs
        ["/", "tmp", "clang-unformat-temp"]).1 →
      validate_temp_dir sample_config w2
        = .ok ⟨true, sample_config, w2.print "## Validating temp"⟩ :=
  ⟨⟨by decide, rfl, rfl⟩,
    validate_temp_dir_creates sample_config sample_world
      ["/", "tmp", "clang-unformat-temp"]
      (fs_create_directories sample_world.fs ["/", "tmp", "clang-unformat-temp"]).1
      rfl (by decide) rfl (by decide) rfl⟩

/-- C14, counterexample. First, `/src/main.cpp` is a regular file, so the path
`/src/main.cpp/x` does not exist, and `validate_temp_dir` does not create it
and succeed: `fs::create_directories` throws. Second, the path
`/x/y/../../x` does not exist either; `fs::create_directories` makes `/x` and
`/x/y` and returns, `validate_temp_dir` returns true, and the path now names
`/x`, which is not empty: the second `validate_temp_dir` returns false. -/
theorem validate_temp_dir_absent_temp :
    (fs_exists sample_world.fs ["/", "src", "main.cpp", "x"] = false ∧
      validate_temp_dir { sample_config with temp := ["/", "src", "main.cpp", "x"] }
          sample_world
        = .error ⟨.filesystem_error,
            { sample_config with temp := ["/", "src", "main.cpp", "x"] },
            sample_world.print "## Validating temp"⟩) ∧
    (fs_exists sample_world.fs ["/", "x", "y", "..", "..", "x"] = false ∧
      ∃ r, validate_temp_dir
            { sample_config with temp := ["/", "x", "y", "..", "..", "x"] } sample_world
          = .ok r ∧
        r.ok = true ∧
        directory_iterator r.world.fs ["/", "x", "y", "..", "..", "x"]
          = .ok [["/", "x", "y", "..", "..", "x", "y"]] ∧
        validate_temp_dir r.config r.world
          = .ok ⟨false, r.config, r.world.print "## Validating temp"⟩) :=
  ⟨⟨by decide, rfl⟩, by decide, _, rfl, rfl, rfl, rfl⟩

/-! ## What the validators leave of the filesystem -/

/-- What `validate_temp_dir` leaves of the filesystem, whether it returns or
throws. -/
theorem validate_temp_dir_outcome_fs (config : cli_config) (w : world) (t : path)
    (ht : t = if path.empty config.temp = true
      then path.append (current_path w.fs) ["clang-unformat-temp"] else config.temp) :
    (outcome_world (validate_temp_dir config w)).fs = w.fs ∨
      (fs_exists w.fs t = false ∧
        (outcome_world (validate_temp_dir config w)).fs
          = (fs_create_directories w.fs t).1) := by
  cases he : path.empty config.temp with
  | true =>
    simp only [he, if_true] at ht
    subst ht
    unfold validate_temp_dir
    simp only [he, if_true, print_fs]
    cases hex : fs_exists w.fs (path.append (current_path w.fs) ["clang-unformat-temp"]) with
    | true =>
      left
      rw [if_pos rfl]
      repeat' split
      all_goals rfl
    | false =>
      right
      refine ⟨rfl, ?_⟩
      simp only [Bool.false_eq_true, if_false]
      split <;> rfl
  | false =>
    simp only [he, Bool.false_eq_true, if_false] at ht
    subst ht
    unfold validate_temp_dir
    simp only [he, Bool.false_eq_true, if_false, print_fs]
    cases hex : fs_exists w.fs config.temp with
    | true =>
      left
      rw [if_pos rfl]
      repeat' split
      all_goals rfl
    | false =>
      right
      refine ⟨rfl, ?_⟩
      simp only [Bool.false_eq_true, if_false]
      split <;> rfl

theorem set_clang_format_version_outcome_fs (env : environment) (config : cli_config)
    (w : world) : (outcome_world (set_clang_format_version env config w)).fs = w.fs := by
  unfold set_clang_format_version
  split
  · rfl
  · split <;> rfl

theorem validate_clang_format_executable_outcome_fs (env : environment)
    (config : cli_config) (w : world) :
    (outcome_world (validate_clang_format_executable env config w)).fs = w.fs := by
  have hok : ∀ c w1 r, set_clang_format_version env c w1 = .ok r → r.world.fs = w1.fs := by
    intro c w1 r h
    have := set_clang_format_version_outcome_fs env c w1
    rw [h] at this
    exact this
  have herr : ∀ c w1 e, set_clang_format_version env c w1 = .error e →
      e.world.fs = w1.fs := by
    intro c w1 e h
    have := set_clang_format_version_outcome_fs env c w1
    rw [h] at this
    exact this
  unfold validate_clang_format_executable
  simp only []
  split
  · split
    · split
      · rename_i e h1
        exact herr _ (w.print "## Validating clang-format") _ h1
      · rename_i r1 h1
        split
        · rename_i e h2
          exact (herr _ _ _ h2).trans (hok _ (w.print "## Validating clang-format") _ h1)
        · rename_i r2 h2
          exact (hok _ _ r2 h2).trans (hok _ (w.print "## Validating clang-format") r1 h1)
    · rfl
  · split
    · rfl
    · split
      · rename_i e h1
        exact herr _ (w.print "## Validating clang-format") _ h1
      · rename_i r1 h1
        exact hok _ (w.print "## Validating clang-format") r1 h1

theorem validate_output_dir_temp (config : cli_config) (w : world) :
    (validate_output_dir config w).config.temp = config.temp := by
  rw [validate_output_dir_eq config w _ rfl]
  split_ifs <;> rfl

/-- What `validate_config` leaves of the filesystem, whether it returns or
throws: only `validate_temp_dir` changes it. -/
theorem validate_config_outcome_fs (env : environment) (config : cli_config) (w : world)
    (t : path)
    (ht : t = if path.empty config.temp = true
      then path.append (current_path w.fs) ["clang-unformat-temp"] else config.temp) :
    (outcome_world (validate_config env config w)).fs = w.fs ∨
      (fs_exists w.fs t = false ∧
        (outcome_world (validate_config env config w)).fs
          = (fs_create_directories w.fs t).1) := by
  have hs := validate_config_steps env config w _ _ rfl rfl
  have hi := validate_input_dir_world config w
  have ho := validate_output_dir_world config (w.print "## Validating input")
  have hot := validate_output_dir_temp config (w.print "## Validating input")
  rw [hi.1, hi.2, ho] at hs
  obtain ⟨s1, s2, s3⟩ := hs
  cases a : (validate_input_dir config w).ok with
  | false =>
    rw [s1 a]
    left
    show (validate_input_dir config w).world.fs = w.fs
    rw [hi.1]
    rfl
  | true =>
    cases b : (validate_output_dir config (w.print "## Validating input")).ok with
    | false =>
      rw [s2 a b]
      left
      show (validate_output_dir config (w.print "## Validating input")).world.fs = w.fs
      rw [ho]
      rfl
    | true =>
      obtain ⟨s3e, s3o⟩ := s3 a b
      have f3 := validate_temp_dir_outcome_fs
        (validate_output_dir config (w.print "## Validating input")).config
        ((w.print "## Validating input").print "## Validating output") t
        (by rw [hot]; exact ht)
      cases h3 : validate_temp_dir
          (validate_output_dir config (w.print "## Validating input")).config
          ((w.print "## Validating input").print "## Validating output") with
      | error e =>
        rw [s3e e h3]
        rw [h3] at f3
        exact f3
      | ok r3 =>
        rw [h3] at f3
        cases c : r3.ok with
        | false =>
          rw [(s3o r3 h3).1 c]
          exact f3
        | true =>
          obtain ⟨s4e, s4o⟩ := (s3o r3 h3).2 c
          have f4 := validate_clang_format_executable_outcome_fs env r3.config r3.world
          cases h4 : validate_clang_format_executable env r3.config r3.world with
          | error e =>
            rw [s4e e h4]
            rw [h4] at f4
            show e.world.fs = w.fs ∨ (_ ∧ e.world.fs = _)
            have f4e : e.world.fs = r3.world.fs := f4
            rw [f4e]
            exact f3
          | ok r4 =>
            rw [h4] at f4
            have f4o : r4.world.fs = r3.world.fs := f4
            cases d : r4.ok with
            | false =>
              rw [(s4o r4 h4).1 d]
              show r4.world.fs = w.fs ∨ (_ ∧ r4.world.fs = _)
              rw [f4o]
              exact f3
            | true =>
              rw [(s4o r4 h4).2 d]
              show r4.world.fs = w.fs ∨ (_ ∧ r4.world.fs = _)
              rw [f4o]
              exact f3

/-- C17, as amended: `validate_temp_dir` and `validate_config`, whether they
return or throw, leave the filesystem as it is, or as
`fs::create_directories(t)` left it when the temporary path `t` did not exist.
Nothing is deleted and nothing changes its kind: a path that named a file
names a file afterwards, and a path that named a directory names a directory.
When nothing was created in `config.input` or below it (at no place in or
below the place of `config.input` where nothing was is there something
afterwards), the recursive walk of `config.input` yields the same entries as
before. -/
theorem validators_keep_input (env : environment) (config : cli_config) (w : world)
    (t : path) (out : world)
    (ht : t = if path.empty config.temp = true
      then path.append (current_path w.fs) ["clang-unformat-temp"] else config.temp)
    (hout : out = outcome_world (validate_temp_dir config w) ∨
      out = outcome_world (validate_config env config w)) :
    (out.fs = w.fs ∨
      (fs_exists w.fs t = false ∧ out.fs = (fs_create_directories w.fs t).1)) ∧
    (∀ p, fs_status w.fs p = .regular → fs_status out.fs p = .regular) ∧
    (∀ p x, fs_status w.fs p = .directory x → ∃ y, fs_status out.fs p = .directory y) ∧
    (∀ ci entries, w.fs.resolve config.input = some ci →
      recursive_directory_iterator w.fs config.input = .ok entries →
      (∀ L, ci <+: L → w.fs.root.node_at L = .absent → out.fs.root.node_at L = .absent) →
      recursive_directory_iterator out.fs config.input = .ok entries) := by
  have hfs : out.fs = w.fs ∨
      (fs_exists w.fs t = false ∧ out.fs = (fs_create_directories w.fs t).1) := by
    rcases hout with h | h
    · rw [h]
      exact validate_temp_dir_outcome_fs config w t ht
    · rw [h]
      exact validate_config_outcome_fs env config w t ht
  have hkept : out.fs.cwd = w.fs.cwd ∧
      (∀ L, (w.fs.root.node_at L).kept_as (out.fs.root.node_at L) = true) ∧
      ∀ ci d, w.fs.root.node_at ci = .dir d →
        (∀ L, ci <+: L → w.fs.root.node_at L = .absent →
          out.fs.root.node_at L = .absent) →
        out.fs.root.node_at ci = .dir d := by
    rcases hfs with h | ⟨_, h⟩
    · rw [h]
      exact ⟨rfl, fun L => kept_as_refl _, fun _ _ hd _ => hd⟩
    · rw [h]
      exact fs_create_directories_kept w.fs t
  refine ⟨hfs, ?_, ?_, ?_⟩
  · intro p
    exact (fs_status_kept w.fs out.fs hkept.1 hkept.2.1 p).1
  · intro p
    exact (fs_status_kept w.fs out.fs hkept.1 hkept.2.1 p).2
  · intro ci entries hres hit hnew
    exact recursive_directory_iterator_kept w.fs out.fs hkept.1 hkept.2 config.input ci
      entries hres hit hnew

/-- C17, as amended, at two runs of `validate_temp_dir`. On the sample
configuration it creates `/tmp/clang-unformat-temp` and returns. Where no
directory can be made in `/tmp`, it makes `/tmp` for the temporary path
`/tmp/a` and then throws. After both, the walk of the input `/src` yields
what it yielded before. -/
theorem validators_keep_input_witness :
    (fs_exists (outcome_world (validate_temp_dir sample_config sample_world)).fs
        ["/", "tmp", "clang-unformat-temp"] = true ∧
      recursive_directory_iterator
        (outcome_world (validate_temp_dir sample_config sample_world)).fs ["/", "src"]
        = .ok [["/", "src", "lib"], ["/", "src", "lib", "a.cpp"],
               ["/", "src", "main.cpp"]]) ∧
    (validate_temp_dir { sample_config with temp := ["/", "tmp", "a"] }
        ⟨guarded_fs, 0, []⟩
      = .error ⟨.filesystem_error, { sample_config with temp := ["/", "tmp", "a"] },
          ⟨⟨sample_root.add_dir "tmp", [], [["tmp"]]⟩, 0, ["## Validating temp"]⟩⟩ ∧
      recursive_directory_iterator
        (outcome_world (validate_temp_dir
          { sample_config with temp := ["/", "tmp", "a"] } ⟨guarded_fs, 0, []⟩)).fs
        ["/", "src"]
        = .ok [["/", "src", "lib"], ["/", "src", "lib", "a.cpp"],
               ["/", "src", "main.cpp"]]) :=
  ⟨⟨by decide,
    (validators_keep_input (host_running ⟨[], false, 0, 0⟩) sample_config sample_world
      ["/", "tmp", "clang-unformat-temp"] _ rfl (Or.inl rfl)).2.2.2
      ["src"] _ rfl rfl (by
        intro L hpre
        obtain ⟨rest, rfl⟩ := hpre
        intro h
        exact h)⟩,
   ⟨rfl,
    (validators_keep_input (host_running ⟨[], false, 0, 0⟩)
      { sample_config with temp := ["/", "tmp", "a"] } ⟨guarded_fs, 0, []⟩
      ["/", "tmp", "a"] _ rfl (Or.inl rfl)).2.2.2
      ["src"] _ rfl rfl (by
        intro L hpre
        obtain ⟨rest, rfl⟩ := hpre
        intro h
        exact h)⟩⟩

/-- C17, counterexample: with the input `/src` and the temporary directory
`/src/tmp`, which does not exist, `validate_temp_dir` succeeds and the walk
of the input yields one entry more than before, the new `/src/tmp`. The same
happens when the temporary directory is given as `/usr/../src/tmp`. -/
theorem validate_temp_dir_inside_input :
    (∃ r, validate_temp_dir { sample_config with temp := ["/", "src", "tmp"] }
          sample_world = .ok r ∧
      r.ok = true ∧
      recursive_directory_iterator sample_world.fs ["/", "src"]
        = .ok [["/", "src", "lib"], ["/", "src", "lib", "a.cpp"],
               ["/", "src", "main.cpp"]] ∧
      recursive_directory_iterator r.world.fs ["/", "src"]
        = .ok [["/", "src", "lib"], ["/", "src", "lib", "a.cpp"],
               ["/", "src", "main.cpp"], ["/", "src", "tmp"]]) ∧
    (∃ r, validate_temp_dir
          { sample_config with temp := ["/", "usr", "..", "src", "tmp"] }
          sample_world = .ok r ∧
      r.ok = true ∧
      recursive_directory_iterator r.world.fs ["/", "src"]
        = .ok [["/", "src", "lib"], ["/", "src", "lib", "a.cpp"],
               ["/", "src", "main.cpp"], ["/", "src", "tmp"]]) :=
  ⟨⟨_, rfl, rfl, rfl, rfl⟩, ⟨_, rfl, rfl, rfl⟩⟩

end ClangUnformat
